import Mathlib

/-!
Shallow embedding of the merge/deduplication engine of `src/sync_formats.js`
(whatsapp-backup repository), together with proofs about the claims of its
specification.

Modelling conventions, used throughout and noted at each definition where they
matter:

* JavaScript strings are modelled by Lean `String`; per-character operations
  (char codes, case mapping) are faithful for characters of the Basic
  Multilingual Plane, and `charCodeAt` surrogate pairs are expanded explicitly
  where hashing needs them.
* JavaScript `Number` values that the program uses as integers (timestamps,
  counts, 32-bit hash values) are modelled by `Int`/`Nat`; every value the
  program manipulates is far below 2^53, so float rounding never changes an
  integer result.  `NaN` timestamps (from an unparseable date) are modelled by
  `Option Int` with `none` standing for `NaN`.
* The process is modelled as running with its timezone fixed to UTC, so the
  local-time `Date` constructor and `toISOString` agree on the same civil
  fields.
* `console.log` progress output is not modelled; `console.warn` warnings are
  modelled as explicit result components where a claim refers to them.
* `Map` and `Set` are modelled by association lists / lists that preserve
  insertion order, exactly as the JS iteration order does.
-/

namespace WhatsappSync

/-! ### JavaScript string primitives -/

/-- The whitespace class of JavaScript (`\s` in regexes, `String.prototype.trim`,
`split(/\s+/)`): ASCII whitespace, NBSP, BOM and the Unicode space separators. -/
def jsWhitespaceChar (c : Char) : Bool :=
  c = ' ' ∨ c = '\t' ∨ c = '\n' ∨ c = '\r' ∨ c.toNat = 0x0b ∨ c.toNat = 0x0c ∨
  c.toNat = 0xa0 ∨ c.toNat = 0xfeff ∨ c.toNat = 0x1680 ∨
  (0x2000 ≤ c.toNat ∧ c.toNat ≤ 0x200a) ∨
  c.toNat = 0x2028 ∨ c.toNat = 0x2029 ∨ c.toNat = 0x202f ∨ c.toNat = 0x205f ∨
  c.toNat = 0x3000

/-- `String.prototype.trim`. -/
def jsTrim (s : String) : String :=
  ⟨(s.data.dropWhile jsWhitespaceChar).reverse.dropWhile jsWhitespaceChar |>.reverse⟩

/-- `String.prototype.toLowerCase`, faithful for ASCII (all inputs the program
compares case-insensitively in the modelled paths are ASCII). -/
def jsToLower (s : String) : String := ⟨s.data.map Char.toLower⟩

/-- Does `pat` occur as a contiguous substring of `l`?  (`String.prototype.includes`.) -/
def listHasInfix (l pat : List Char) : Bool :=
  l.tails.any (fun t => pat.isPrefixOf t)

/-- `String.prototype.includes`. -/
def jsIncludes (s pat : String) : Bool := listHasInfix s.data pat.data

/-- Replace the first occurrence of `pat` (a plain string, as in
`String.prototype.replace` with a string argument) by nothing. -/
def removeFirstAux (pat : List Char) : List Char → List Char
  | [] => []
  | c :: rest =>
      if pat.isPrefixOf (c :: rest) then (c :: rest).drop pat.length
      else c :: removeFirstAux pat rest

/-- `s.replace(pat, "")` for a plain-string `pat` (only the first occurrence). -/
def jsRemoveFirst (s pat : String) : String := ⟨removeFirstAux pat.data s.data⟩

/-- `String.prototype.substring(0, n)`. -/
def jsTake (s : String) (n : Nat) : String := ⟨s.data.take n⟩

/-- `String.prototype.slice(-2)`: the last two characters. -/
def jsSliceLast2 (s : String) : String := ⟨s.data.reverse.take 2 |>.reverse⟩

/-- `n.toString().padStart(2, "0")` for a natural number. -/
def pad2 (n : Nat) : String :=
  let s := toString n
  if s.length < 2 then "0" ++ s else s

/-- Left-pad a natural's decimal form with zeros to 4 digits (`toISOString` year). -/
def pad4 (n : Nat) : String :=
  let s := toString n
  if s.length ≥ 4 then s
  else ⟨List.replicate (4 - s.length) '0'⟩ ++ s

/-- `split(/\s+/)` : split on maximal runs of whitespace.  JavaScript keeps an
empty first (resp. last) component when the string starts (resp. ends) with a
separator, and yields `[""]` on the empty string.  The `sep` flag is true while
skipping the remainder of a separator run; `acc` is the current component. -/
def splitWsGo : Bool → List Char → List Char → List (List Char)
  | false, [], acc => [acc.reverse]
  | false, c :: rest, acc =>
      if jsWhitespaceChar c then acc.reverse :: splitWsGo true rest []
      else splitWsGo false rest (c :: acc)
  | true, [], _ => [[]]
  | true, c :: rest, _ =>
      if jsWhitespaceChar c then splitWsGo true rest []
      else splitWsGo false rest [c]

/-- `s.split(/\s+/)`. -/
def jsSplitWs (s : String) : List String := (splitWsGo false s.data []).map fun l => ⟨l⟩

/-- A JS `Set` built from a list: deduplicated, keeping first occurrences
(insertion order, as `Set` iteration does). -/
def jsSetOf (l : List String) : List String :=
  l.foldl (fun acc x => if x ∈ acc then acc else acc ++ [x]) []

/-- `Array.prototype.join(" ")`. -/
def joinSpace : List String → String
  | [] => ""
  | [s] => s
  | s :: rest => s ++ " " ++ joinSpace rest

/-! ### 32-bit integer semantics and the content hash -/

/-- `ToInt32` of ECMAScript: wrap an integer into `[-2^31, 2^31)`. -/
def toInt32 (n : Int) : Int := (n + 2 ^ 31) % 2 ^ 32 - 2 ^ 31

/-- `String.prototype.charCodeAt` over the whole string: UTF-16 code units,
expanding astral code points into surrogate pairs. -/
def utf16Codes (s : String) : List Int :=
  s.data.flatMap fun c =>
    let n := c.toNat
    if n < 0x10000 then [(n : Int)]
    else [(0xd800 + (n - 0x10000) / 0x400 : Int), (0xdc00 + (n - 0x10000) % 0x400 : Int)]

/-- One step of the rolling hash of `createMessageHash`:
`hash = (hash << 5) - hash + char; hash = hash & hash`.
`hash << 5` coerces to int32 and wraps; `& hash` coerces the sum to int32. -/
def hashStep (h c : Int) : Int := toInt32 (toInt32 (h * 32) - h + c)

/-- The 31-based rolling hash over a string, as a 32-bit integer.  The source
returns `hash.toString()`; decimal rendering is injective on integers, so the
integer itself is an equivalent fingerprint key. -/
def jsStringHash (s : String) : Int := (utf16Codes s).foldl hashStep 0

/-! ### Civil-calendar arithmetic (ECMAScript `Date`, timezone fixed to UTC) -/

/-- Days from the epoch to civil date `y-m-d` (`m` is 1-based here), for a day
already normalized to a real month; Howard Hinnant's `days_from_civil`. -/
def daysFromCivilNorm (y m d : Int) : Int :=
  let y' := if m ≤ 2 then y - 1 else y
  let era : Int := Int.fdiv y' 400
  let yoe := y' - era * 400
  let mp := Int.emod (m + 9) 12
  let doy := Int.fdiv (153 * mp + 2) 5 + d - 1
  let doe := yoe * 365 + Int.fdiv yoe 4 - Int.fdiv yoe 100 + doy
  era * 146097 + doe - 719468

/-- `MakeDay`-style month rollover: arbitrary integer month (0-based) and day,
as the `Date` constructor accepts them. -/
def daysFromFields (y mo d : Int) : Int :=
  let ym := y * 12 + mo
  let yn := Int.fdiv ym 12
  let mn := ym - yn * 12
  daysFromCivilNorm yn (mn + 1) d

/-- The `Date` constructor's two-digit-year rule: years 0..99 mean 1900+y. -/
def jsYearAdjust (y : Int) : Int := if 0 ≤ y ∧ y ≤ 99 then y + 1900 else y

/-- `new Date(y, mo, d, h, mi, s).getTime()` with the process timezone fixed to
UTC: epoch milliseconds, with full field rollover. -/
def millisFromFields (y mo d h mi s : Int) : Int :=
  daysFromFields (jsYearAdjust y) mo d * 86400000 + h * 3600000 + mi * 60000 + s * 1000

/-- Inverse of `daysFromCivilNorm`: civil `(y, m, d)` (`m` 1-based) from a day
number; Howard Hinnant's `civil_from_days`. -/
def civilFromDays (z : Int) : Int × Int × Int :=
  let z' := z + 719468
  let era : Int := Int.fdiv z' 146097
  let doe := z' - era * 146097
  let yoe := Int.fdiv (doe - Int.fdiv doe 1460 + Int.fdiv doe 36524 - Int.fdiv doe 146096) 365
  let y := yoe + era * 400
  let doy := doe - (365 * yoe + Int.fdiv yoe 4 - Int.fdiv yoe 100)
  let mp := Int.fdiv (5 * doy + 2) 153
  let d := doy - Int.fdiv (153 * mp + 2) 5 + 1
  let m := if mp < 10 then mp + 3 else mp - 9
  (if m ≤ 2 then y + 1 else y, m, d)

/-- The civil fields `(year, month 1-based, day, hour, minute, second)` of an
epoch-millisecond instant, in UTC. -/
def fieldsOfMillis (ms : Int) : Int × Int × Int × Nat × Nat × Nat :=
  let days := Int.fdiv ms 86400000
  let rem := (ms - days * 86400000).toNat
  let c := civilFromDays days
  (c.1, c.2.1, c.2.2, rem / 3600000, rem / 60000 % 60, rem / 1000 % 60)

/-- `toISOString().slice(0, 19).replace("T", " ")`:
the `YYYY-MM-DD HH:MM:SS` rendering of an instant (years in the program's
reachable range are 0..9999, printed as 4 digits). -/
def isoOfMillis (ms : Int) : String :=
  let f := fieldsOfMillis ms
  pad4 f.1.toNat ++ "-" ++ pad2 f.2.1.toNat ++ "-" ++ pad2 f.2.2.1.toNat ++ " " ++
    pad2 f.2.2.2.1 ++ ":" ++ pad2 f.2.2.2.2.1 ++ ":" ++ pad2 f.2.2.2.2.2

/-! ### The date-format regular expressions of `DATE_FORMATS`

Each regex of the source is modelled by a deterministic matcher.  For a piece
`\d{a,b}` followed by a non-digit literal, a match forces the maximal digit run
at that position to have length in `[a, b]` (shorter alternatives are always
followed by a further digit and fail the literal), so maximal-munch parsing is
exact.  A trailing `\d{n}` with nothing after it just needs `n` digits. -/

/-- The regex `\d` class: ASCII `0`-`9`. -/
def digitChar (c : Char) : Bool := 48 ≤ c.toNat ∧ c.toNat ≤ 57

/-- Maximal digit run and the remainder. -/
def spanDigits (l : List Char) : List Char × List Char :=
  (l.takeWhile digitChar, l.dropWhile digitChar)

/-- Exactly `n` digit characters, then the remainder. -/
def readExactDigits (n : Nat) (l : List Char) : Option (List Char × List Char) :=
  let pre := l.take n
  if pre.length = n ∧ pre.all digitChar then some (pre, l.drop n) else none

/-- A digit run whose maximal length lies in `[lo, hi]`, then the remainder. -/
def readRunDigits (lo hi : Nat) (l : List Char) : Option (List Char × List Char) :=
  let (run, rest) := spanDigits l
  if lo ≤ run.length ∧ run.length ≤ hi then some (run, rest) else none

/-- Expect a literal character. -/
def expectChar (c : Char) : List Char → Option (List Char)
  | [] => none
  | d :: rest => if d = c then some rest else none

/-- Expect a literal string. -/
def expectStr (pat : String) (l : List Char) : Option (List Char) :=
  if pat.data.isPrefixOf l then some (l.drop pat.length) else none

/-- `parseInt` on an all-digit capture. -/
def parseIntJS (s : String) : Int :=
  s.data.foldl (fun a c => a * 10 + ((c.toNat : Int) - 48)) 0

/-- `DATE_FORMATS.US`: `^(\d{1,2})\/(\d{1,2})\/(\d{2,4}), (\d{1,2}):(\d{2})`
(prefix match; captures as strings). -/
def matchUSDate (l : List Char) : Option (String × String × String × String × String) := do
  let (mo, r1) ← readRunDigits 1 2 l
  let r2 ← expectChar '/' r1
  let (d, r3) ← readRunDigits 1 2 r2
  let r4 ← expectChar '/' r3
  let (y, r5) ← readRunDigits 2 4 r4
  let r6 ← expectStr ", " r5
  let (h, r7) ← readRunDigits 1 2 r6
  let r8 ← expectChar ':' r7
  let (mi, _) ← readExactDigits 2 r8
  pure (⟨mo⟩, ⟨d⟩, ⟨y⟩, ⟨h⟩, ⟨mi⟩)

/-- The bracketed EU date body `\d{2}\.\d{2}\.\d{4}, \d{2}:\d{2}:\d{2}`;
returns the six captures and the remainder. -/
def readEUDateBody (l : List Char) :
    Option ((String × String × String × String × String × String) × List Char) := do
  let (d, r1) ← readExactDigits 2 l
  let r2 ← expectChar '.' r1
  let (mo, r3) ← readExactDigits 2 r2
  let r4 ← expectChar '.' r3
  let (y, r5) ← readExactDigits 4 r4
  let r6 ← expectStr ", " r5
  let (h, r7) ← readExactDigits 2 r6
  let r8 ← expectChar ':' r7
  let (mi, r9) ← readExactDigits 2 r8
  let r10 ← expectChar ':' r9
  let (s, r11) ← readExactDigits 2 r10
  pure ((⟨d⟩, ⟨mo⟩, ⟨y⟩, ⟨h⟩, ⟨mi⟩, ⟨s⟩), r11)

/-- `DATE_FORMATS.EU`: `^\[(\d{2})\.(\d{2})\.(\d{4}), (\d{2}):(\d{2}):(\d{2})\]`. -/
def matchEUDate (l : List Char) :
    Option (String × String × String × String × String × String) := do
  let r0 ← expectChar '[' l
  let (caps, r1) ← readEUDateBody r0
  let _ ← expectChar ']' r1
  pure caps

/-- `DATE_FORMATS.EU_NO_BRACKETS`:
`^(\d{2})\.(\d{2})\.(\d{4}), (\d{2}):(\d{2}):(\d{2})` (prefix match). -/
def matchEUNBDate (l : List Char) :
    Option (String × String × String × String × String × String) := do
  let (caps, _) ← readEUDateBody l
  pure caps

/-! ### `Date` string parsing (V8, timezone fixed to UTC) -/

/-- Days in a civil month. -/
def daysInMonth (y m : Int) : Int :=
  if m = 2 then (if Int.emod y 4 = 0 ∧ (Int.emod y 100 ≠ 0 ∨ Int.emod y 400 = 0) then 29 else 28)
  else if m = 4 ∨ m = 6 ∨ m = 9 ∨ m = 11 then 30 else 31

/-- Millis from an already-shape-checked `YYYY-MM-DD HH:MM:SS` capture under
ECMAScript ISO semantics (`replace(" ", "T")` form): fields are range-checked
(month 1..12, day 1..31, hour ≤ 23 or `24:00:00`, minute/second ≤ 59) and the
day may roll past the month's end. -/
def isoFieldsToMillis (y mo d h mi s : Int) : Option Int :=
  if 1 ≤ mo ∧ mo ≤ 12 ∧ 1 ≤ d ∧ d ≤ 31 ∧ mi ≤ 59 ∧ s ≤ 59 ∧
      (h ≤ 23 ∨ (h = 24 ∧ mi = 0 ∧ s = 0)) then
    some (daysFromFields y (mo - 1) d * 86400000 + h * 3600000 + mi * 60000 + s * 1000)
  else none

/-- Read the six fields of a full `YYYY-MM-DD HH:MM:SS`-shaped string (`sep`
separates date and time); `none` when the shape (anchored on both ends) fails. -/
def readDateTimeShape (sep : Char) (l : List Char) :
    Option (Int × Int × Int × Int × Int × Int) := do
  let (y, r1) ← readExactDigits 4 l
  let r2 ← expectChar '-' r1
  let (mo, r3) ← readExactDigits 2 r2
  let r4 ← expectChar '-' r3
  let (d, r5) ← readExactDigits 2 r4
  let r6 ← expectChar sep r5
  let (h, r7) ← readExactDigits 2 r6
  let r8 ← expectChar ':' r7
  let (mi, r9) ← readExactDigits 2 r8
  let r10 ← expectChar ':' r9
  let (s, r11) ← readExactDigits 2 r10
  if r11 = [] then
    pure (parseIntJS ⟨y⟩, parseIntJS ⟨mo⟩, parseIntJS ⟨d⟩,
      parseIntJS ⟨h⟩, parseIntJS ⟨mi⟩, parseIntJS ⟨s⟩)
  else none

/-- `new Date(str).getTime()` for the `YYYY-MM-DD HH:MM:SS` strings the program
itself produces and stores (V8's parser for this space-separated shape demands
a real calendar date: no day rollover).  All other strings are modelled as
`Invalid Date` (`none`); the program only ever feeds it strings of this shape
or strings a human put in the structured-record file. -/
def jsonDateToMillis (str : String) : Option Int := do
  let (y, mo, d, h, mi, s) ← readDateTimeShape ' ' str.data
  if 1 ≤ mo ∧ mo ≤ 12 ∧ 1 ≤ d ∧ d ≤ daysInMonth y mo ∧ h ≤ 23 ∧ mi ≤ 59 ∧ s ≤ 59 then
    some (daysFromFields y (mo - 1) d * 86400000 + h * 3600000 + mi * 60000 + s * 1000)
  else none

/-! ### `normalizeDate` -/

/-- The `date` variable of `normalizeDate` after all four branches: the US, EU
and EU-no-brackets branches construct a (numeric, hence always valid) `Date`;
the ISO branch runs only when no earlier branch assigned and can yield an
invalid date (`none`).  The US branch pivots two-digit years at 50 by string
concatenation before `parseInt`. -/
def normalizeDateAux (s : String) : Option Int :=
  let l := s.data
  let dUS : Option Int := (matchUSDate l).map fun (mo, d, y, h, mi) =>
    let yearStr := if y.length = 2 then
        (if parseIntJS y > 50 then "19" ++ y else "20" ++ y) else y
    millisFromFields (parseIntJS yearStr) (parseIntJS mo - 1) (parseIntJS d)
      (parseIntJS h) (parseIntJS mi) 0
  let dEU : Option Int := match matchEUDate l with
    | some (d, mo, y, h, mi, sec) =>
        some (millisFromFields (parseIntJS y) (parseIntJS mo - 1) (parseIntJS d)
          (parseIntJS h) (parseIntJS mi) (parseIntJS sec))
    | none => dUS
  let dEUNB : Option Int := match matchEUNBDate l with
    | some (d, mo, y, h, mi, sec) =>
        some (millisFromFields (parseIntJS y) (parseIntJS mo - 1) (parseIntJS d)
          (parseIntJS h) (parseIntJS mi) (parseIntJS sec))
    | none => dEU
  match dEUNB with
  | some ms => some ms
  | none =>
      match readDateTimeShape ' ' l with
      | some (y, mo, d, h, mi, sec) => isoFieldsToMillis y mo d h mi sec
      | none => none

/-- `normalizeDate(dateStr)`: the normalized `YYYY-MM-DD HH:MM:SS` string plus
the `console.warn` lines it emits.  `now` is the current instant used by the
`new Date()` fallback. -/
def normalizeDate (now : Int) (s : String) : String × List String :=
  match normalizeDateAux s with
  | some ms => (isoOfMillis ms, [])
  | none => (isoOfMillis now, ["Could not parse date: " ++ s])

/-! ### The message model -/

/-- The in-memory message record built by both parsers.  JS `null`/`undefined`
string fields are modelled as `""` (they are used only in boolean positions
`x || y` / `if (x)`, where `""` and `null` behave identically); a `NaN`
`timestamp` is `none`. -/
structure Message where
  country : String := "Unknown"
  phoneNum : String := ""
  formattedName : String := ""
  displayName : String := ""
  messageTime : String := ""
  messageType : String := "chat"
  messageBody : String := ""
  messageId : String := ""
  timestamp : Option Int := none
  source : String := ""
  isAttachment : Bool := false
  originalDateFormat : String := "US"
deriving DecidableEq, Repr

/-- `String.prototype.startsWith`. -/
def jsStartsWith (s pat : String) : Bool := pat.data.isPrefixOf s.data

/-- `String.prototype.toUpperCase` (ASCII, used on hex digits only). -/
def jsToUpper (s : String) : String := ⟨s.data.map Char.toUpper⟩

/-- `path.extname`, POSIX: the part of the last path segment from its last dot,
empty for dotless or dot-leading segments. -/
def extname (s : String) : String :=
  let seg := (s.data.reverse.takeWhile (· ≠ '/')).reverse
  let revAfterDot := seg.reverse.takeWhile (· ≠ '.')
  if revAfterDot.length = seg.length then ""
  else if seg.length - revAfterDot.length - 1 = 0 then ""
  else ⟨'.' :: revAfterDot.reverse⟩

/-- UTF-8 encoding of a string, for `Buffer.from(str)`. -/
def utf8Bytes (s : String) : List Nat :=
  s.data.flatMap fun c =>
    let n := c.toNat
    if n < 0x80 then [n]
    else if n < 0x800 then [0xc0 + n / 64, 0x80 + n % 64]
    else if n < 0x10000 then [0xe0 + n / 4096, 0x80 + n / 64 % 64, 0x80 + n % 64]
    else [0xf0 + n / 262144, 0x80 + n / 4096 % 64, 0x80 + n / 64 % 64, 0x80 + n % 64]

/-- Lowercase hex rendering of one byte. -/
def hexOfByte (b : Nat) : List Char :=
  let dig := fun n => if n < 10 then Char.ofNat (48 + n) else Char.ofNat (87 + n)
  [dig (b / 16), dig (b % 16)]

/-- `generateMessageId(sender, timestamp, isMultiLine)`.  The `Math.random()`
component is the explicit argument `rand` (the decimal string the template
literal interpolates). -/
def generateMessageId (sender timestampStr : String) (isMultiLine : Bool)
    (rand : String) : String :=
  let content := sender ++ "_" ++ timestampStr ++ "_" ++ rand ++ "_" ++
    (if isMultiLine then "true" else "false")
  let hash := jsToUpper ⟨((utf8Bytes content).flatMap hexOfByte).take 16⟩
  let isOutgoing := sender = "You" ∨ sender = "SELF" ∨
    jsIncludes (jsToLower sender) "you" = true ∨ jsToLower sender = "me"
  (if isOutgoing then "true" else "false") ++ "_sync@c.us_" ++ hash

/-! ### The message-line regular expressions -/

/-- Split at the first `": "` (colon at any position), as the lazy `(.+?): `
does once the pattern is anchored right after the date separator. -/
def findColonSpace : List Char → Option (List Char × List Char)
  | [] => none
  | ':' :: ' ' :: rest => some ([], rest)
  | c :: rest => (findColonSpace rest).map fun p => (c :: p.1, p.2)

/-- `(.+?): (.*)$`: the sender is everything before the first `": "` that
leaves it non-empty; the content is the rest of the line. -/
def senderContentSplit (l : List Char) : Option (String × String) :=
  match l with
  | [] => none
  | c :: rest => (findColonSpace rest).map fun p => (⟨c :: p.1⟩, ⟨p.2⟩)

/-- `DATE_FORMATS.MESSAGE_US`:
`^(\d{1,2}\/\d{1,2}\/\d{2,4}, \d{1,2}:\d{2}) - (.+?): (.*)$`.
Returns (captured date string, sender, content). -/
def matchMessageUS (l : List Char) : Option (String × String × String) := do
  let (mo, r1) ← readRunDigits 1 2 l
  let r2 ← expectChar '/' r1
  let (d, r3) ← readRunDigits 1 2 r2
  let r4 ← expectChar '/' r3
  let (y, r5) ← readRunDigits 2 4 r4
  let r6 ← expectStr ", " r5
  let (h, r7) ← readRunDigits 1 2 r6
  let r8 ← expectChar ':' r7
  let (mi, r9) ← readExactDigits 2 r8
  let r10 ← expectStr " - " r9
  let (sender, content) ← senderContentSplit r10
  pure (⟨mo⟩ ++ "/" ++ ⟨d⟩ ++ "/" ++ ⟨y⟩ ++ ", " ++ ⟨h⟩ ++ ":" ++ ⟨mi⟩, sender, content)

/-- `DATE_FORMATS.MESSAGE_EU`:
`^\[(\d{2}\.\d{2}\.\d{4}, \d{2}:\d{2}:\d{2})\] (.+?): (.*)$`. -/
def matchMessageEU (l : List Char) : Option (String × String × String) := do
  let r0 ← expectChar '[' l
  let (caps, r1) ← readEUDateBody r0
  let r2 ← expectStr "] " r1
  let (sender, content) ← senderContentSplit r2
  let (d, mo, y, h, mi, s) := caps
  pure (d ++ "." ++ mo ++ "." ++ y ++ ", " ++ h ++ ":" ++ mi ++ ":" ++ s, sender, content)

/-- `DATE_FORMATS.MESSAGE_EU_NO_BRACKETS`:
`^(\d{2}\.\d{2}\.\d{4}, \d{2}:\d{2}:\d{2}) (.+?): (.*)$`. -/
def matchMessageEUNB (l : List Char) : Option (String × String × String) := do
  let (caps, r1) ← readEUDateBody l
  let r2 ← expectChar ' ' r1
  let (sender, content) ← senderContentSplit r2
  let (d, mo, y, h, mi, s) := caps
  pure (d ++ "." ++ mo ++ "." ++ y ++ ", " ++ h ++ ":" ++ mi ++ ":" ++ s, sender, content)

/-- `DATE_FORMATS.SYSTEM`: `^(\d{1,2}\/\d{1,2}\/\d{2,4}, \d{1,2}:\d{2}) - (.*)$`. -/
def matchSystem (l : List Char) : Option (String × String) := do
  let (mo, r1) ← readRunDigits 1 2 l
  let r2 ← expectChar '/' r1
  let (d, r3) ← readRunDigits 1 2 r2
  let r4 ← expectChar '/' r3
  let (y, r5) ← readRunDigits 2 4 r4
  let r6 ← expectStr ", " r5
  let (h, r7) ← readRunDigits 1 2 r6
  let r8 ← expectChar ':' r7
  let (mi, r9) ← readExactDigits 2 r8
  let r10 ← expectStr " - " r9
  pure (⟨mo⟩ ++ "/" ++ ⟨d⟩ ++ "/" ++ ⟨y⟩ ++ ", " ++ ⟨h⟩ ++ ":" ++ ⟨mi⟩, ⟨r10⟩)

/-- One candidate of `/<attached:\s*([^>]+)>/` at the start of `l`: after the
literal, greedy `\s*` then a non-empty `[^>]+` capture up to a `>` (with `\s*`
giving characters back when the capture would otherwise be empty). -/
def tryAttachedAt (l : List Char) : Option String :=
  if "<attached:".data.isPrefixOf l then
    let r := l.drop 10
    let beforeGt := r.takeWhile (· ≠ '>')
    if r.drop beforeGt.length = [] then none   -- no closing '>'
    else if beforeGt.length = 0 then none      -- nothing to capture
    else
      let afterWs := beforeGt.dropWhile jsWhitespaceChar
      if afterWs = [] then some ⟨[beforeGt.getLast?.getD ' ']⟩ else some ⟨afterWs⟩
  else none

/-- First match of `/<attached:\s*([^>]+)>/` anywhere in the line. -/
def attachedCapture : List Char → Option String
  | [] => none
  | c :: rest =>
      match tryAttachedAt (c :: rest) with
      | some cap => some cap
      | none => attachedCapture rest

/-! ### `parseNativeFile` -/

/-- The extension table of `parseNativeFile`. -/
def messageTypeOfExt (ext : String) : String :=
  if ext = ".jpg" ∨ ext = ".jpeg" ∨ ext = ".png" ∨ ext = ".gif" ∨ ext = ".webp" then "image"
  else if ext = ".mp4" ∨ ext = ".avi" ∨ ext = ".mov" ∨ ext = ".mkv" ∨ ext = ".mpeg" then "video"
  else if ext = ".mp3" ∨ ext = ".wav" ∨ ext = ".ogg" ∨ ext = ".m4a" then "audio"
  else if ext = ".pdf" then "pdf"
  else "document"

/-- The mutable loop state of `parseNativeFile`: accumulated messages, the
message currently being built, and the index of the next `Math.random()` draw. -/
structure NativeParseState where
  messages : List Message
  current : Option Message
  rndIdx : Nat
deriving Repr

/-- The body of the line loop of `parseNativeFile` for one raw line.  `now`
feeds the `normalizeDate` fallback, `rnd` is the `Math.random()` oracle. -/
def parseNativeStep (now : Int) (rnd : Nat → String) (st : NativeParseState)
    (rawLine : String) : NativeParseState :=
  let line := jsTrim rawLine
  if line = "" then st
  else
    let messageMatch :=
      match matchMessageUS line.data with
      | some m => some m
      | none => match matchMessageEU line.data with
        | some m => some m
        | none => matchMessageEUNB line.data
    match messageMatch with
    | some (dateStr, sender, content) =>
        let normalizedDate := (normalizeDate now dateStr).1
        let attach :=
          if jsIncludes content "(file attached)" then
            let filename := jsRemoveFirst content " (file attached)"
            some (messageTypeOfExt (jsToLower (extname filename)), filename)
          else if jsIncludes content "<attached:" then
            match attachedCapture content.data with
            | some cap => some ("image", cap)
            | none => none
          else none
        let messageType := (attach.map Prod.fst).getD "chat"
        let messageBody := (attach.map Prod.snd).getD content
        let isAttachment := attach.isSome
        let senderInfo :=  -- (country, phoneNum, formattedName, displayName)
          if jsStartsWith sender "+" then
            let phoneNum : String := ⟨sender.data.filter (fun c => ¬ jsWhitespaceChar c)⟩
            let country := if jsStartsWith phoneNum "+34" then "Spain"
              else if jsStartsWith phoneNum "+7" then "Russia" else "Unknown"
            (country, phoneNum, sender, "")
          else if jsStartsWith sender "~" then
            let dn : String := ⟨sender.data.drop 1⟩
            ("Unknown", "", dn, dn)
          else ("Unknown", "", sender, sender)
        let originalDateFormat :=
          if (matchMessageEU line.data).isSome then "EU"
          else if (matchMessageEUNB line.data).isSome then "EU_NO_BRACKETS"
          else "US"
        let newMsg : Message :=
          { country := senderInfo.1
            phoneNum := senderInfo.2.1
            formattedName := senderInfo.2.2.1
            displayName := senderInfo.2.2.2
            messageTime := normalizedDate
            messageType := messageType
            messageBody := messageBody
            messageId := generateMessageId sender normalizedDate false (rnd st.rndIdx)
            timestamp := jsonDateToMillis normalizedDate
            source := "native"
            isAttachment := isAttachment
            originalDateFormat := originalDateFormat }
        { messages := st.messages ++ (st.current.map fun m => [m]).getD []
          current := some newMsg
          rndIdx := st.rndIdx + 1 }
    | none =>
        if (matchSystem line.data).isSome then st   -- system messages are skipped
        else
          match st.current with
          | none => st
          | some cm =>
              if jsIncludes line " - " then st
              else if cm.messageType ≠ "chat" then
                -- continuation after an attachment starts a fresh chat message;
                -- the source's `if (currentMessage.displayName)` reads the NEW
                -- record (just reassigned), whose displayName is unset, so the
                -- new message never carries a displayName.
                { messages := st.messages ++ [cm]
                  current := some
                    { country := cm.country
                      phoneNum := cm.phoneNum
                      formattedName := cm.formattedName
                      displayName := ""
                      messageTime := cm.messageTime
                      messageType := "chat"
                      messageBody := line
                      messageId := generateMessageId cm.formattedName cm.messageTime true
                        (rnd st.rndIdx)
                      timestamp := cm.timestamp
                      source := "native"
                      isAttachment := false
                      originalDateFormat := cm.originalDateFormat }
                  rndIdx := st.rndIdx + 1 }
              else
                { st with current := some { cm with messageBody := cm.messageBody ++ "\n" ++ line } }

/-- `content.split("\n")`: plain newline split, keeping empty components. -/
def splitOnNl : List Char → List Char → List String
  | [], acc => [⟨acc.reverse⟩]
  | c :: rest, acc =>
      if c = '\n' then ⟨acc.reverse⟩ :: splitOnNl rest []
      else splitOnNl rest (c :: acc)

/-- `parseNativeFile`, over the file's content instead of its path: split on
newlines, run the line loop, then append the final in-progress message. -/
def parseNativeFile (now : Int) (rnd : Nat → String) (content : String) : List Message :=
  let lines := splitOnNl content.data []
  let final := lines.foldl (parseNativeStep now rnd) ⟨[], none, 0⟩
  final.messages ++ (final.current.map fun m => [m]).getD []

/-! ### `parseJsonFile` -/

/-- One entry of the structured-record (`chats.json`) array. -/
structure JsonRecord where
  country : String := "Unknown"
  phoneNum : String := ""
  formattedName : String := ""
  displayName : String := ""
  messageTime : String := ""
  messageType : String := "chat"
  messageBody : String := ""
  messageId : String := ""
deriving DecidableEq, Repr

/-- `parseJsonFile`, over the parsed array: spread the record and override
`timestamp`, `source`, `isAttachment`, `originalDateFormat`. -/
def parseJsonFile (records : List JsonRecord) : List Message :=
  records.map fun msg =>
    { country := msg.country
      phoneNum := msg.phoneNum
      formattedName := msg.formattedName
      displayName := msg.displayName
      messageTime := msg.messageTime
      messageType := msg.messageType
      messageBody := msg.messageBody
      messageId := msg.messageId
      timestamp := jsonDateToMillis msg.messageTime
      source := "json"
      isAttachment := msg.messageType ≠ "chat"
      originalDateFormat := "US" }

/-! ### Identity normalization -/

/-- JS `\w`: `[A-Za-z0-9_]`. -/
def wordChar (c : Char) : Bool := c.isAlpha ∨ digitChar c ∨ c = '_'

/-- Global replace of `/[@.]\w+/g` by the empty string: drop every `@` or `.`
followed by a non-empty word-character run.  `skipping` is true while the
matched word run is being consumed. -/
def removeAtDotGo (skipping : Bool) : List Char → List Char
  | [] => []
  | c :: rest =>
      if skipping ∧ wordChar c then removeAtDotGo true rest
      else if (c = '@' ∨ c = '.') ∧ (rest.head?.map wordChar).getD false = true then
        removeAtDotGo true rest
      else c :: removeAtDotGo false rest

/-- `s.replace(/[@.]\w+/g, "")` on a character list. -/
def removeAtDotRuns (l : List Char) : List Char := removeAtDotGo false l

/-- The alternation of `/\b(mock|interview|eng|frontend|backend|chat|with)\b/gi`. -/
def fillerWords : List String := ["mock", "interview", "eng", "frontend", "backend", "chat", "with"]

/-- Word boundary after a match of length `n` starting at the head of `l`. -/
def fillerBoundaryOk (l : List Char) (n : Nat) : Bool :=
  match l.drop n with
  | [] => true
  | d :: _ => ¬ wordChar d

/-- First word of `ws` matching case-insensitively at the head of `l` with a
word boundary at its end; returns the match length. -/
def fillerAtList : List String → List Char → Option Nat
  | [], _ => none
  | w :: ws, l =>
      if ((l.take w.length).map Char.toLower = w.data) ∧ fillerBoundaryOk l w.length = true
      then some w.length
      else fillerAtList ws l

/-- The filler-word alternation tried at the head of `l`, in regex order. -/
def fillerAt (l : List Char) : Option Nat := fillerAtList fillerWords l

/-- Global case-insensitive replace of the filler alternation with word
boundaries.  `prevW` records whether the character before the current position
(in the original string) is a word character: a match may only start at a
non-word/word boundary, and scanning resumes right after a removed match
(whose final character is a word character, so the next boundary context is
`true`).  `pending` counts characters of a recognized match still to delete. -/
def removeFillersGo : Bool → Nat → List Char → List Char
  | _, _, [] => []
  | _, Nat.succ k, _ :: rest => removeFillersGo true k rest
  | prevW, 0, c :: rest =>
      if prevW then c :: removeFillersGo (wordChar c) 0 rest
      else
        match fillerAt (c :: rest) with
        | some n => removeFillersGo true (n - 1) rest
        | none => c :: removeFillersGo (wordChar c) 0 rest

/-- The `/\b(mock|...)\b/gi` replace on a character list. -/
def removeFillers (l : List Char) : List Char := removeFillersGo false 0 l

/-- `extractShortName(fullName)`. -/
def extractShortName (fullName : String) : String :=
  let name1 : String := ⟨removeAtDotRuns fullName.data⟩
  let name2 : String := ⟨removeFillers name1.data⟩
  let words := (jsSplitWs name2).filter fun w => w.length > 2
  match words with
  | w :: _ => w
  | [] => if fullName.length > 20 then jsTake fullName 20 ++ "..." else fullName

/-- The tail class `[\s\d\-\(\)]` of the phone regex. -/
def phoneTailChar (c : Char) : Bool :=
  jsWhitespaceChar c ∨ digitChar c ∨ c = '-' ∨ c = '(' ∨ c = ')'

/-- `/^\+?\d+[\s\d\-\(\)]*$/.test(s)`. -/
def phoneTest (s : String) : Bool :=
  let l := if s.data.head? = some '+' then s.data.drop 1 else s.data
  let (run, rest) := spanDigits l
  run.length ≥ 1 ∧ rest.all phoneTailChar

/-- `s.replace(/[\s\-\(\)]/g, "")`. -/
def stripPhone (s : String) : String :=
  ⟨s.data.filter fun c => ¬ (jsWhitespaceChar c ∨ c = '-' ∨ c = '(' ∨ c = ')')⟩

/-- The fallback path of `normalizeSenderName` (no mapping hit): the explicit
per-message rules. -/
def normalizeSenderNameNoMap (msg : Message) : String :=
  let sender := jsTrim msg.formattedName
  if sender = "You" then "SELF"
  else if phoneTest sender then stripPhone sender
  else if jsTrim msg.displayName ≠ "" then jsTrim msg.displayName
  else extractShortName sender

/-- A JS `Map` keyed by strings: an association list in insertion order. -/
def mapHas (m : List (String × β)) (k : String) : Bool := m.any fun p => p.1 = k

/-- `Map.prototype.get` (first — and only — binding of the key). -/
def mapGet (m : List (String × β)) (k : String) : Option β :=
  (m.find? fun p => p.1 = k).map Prod.snd

/-- `Map.prototype.set`: update in place, or append a new binding. -/
def mapSet (m : List (String × β)) (k : String) (v : β) : List (String × β) :=
  if mapHas m k then m.map fun p => if p.1 = k then (k, v) else p
  else m ++ [(k, v)]

/-- `normalizeSenderName(msg, senderMapping)`. -/
def normalizeSenderName (msg : Message) (senderMapping : Option (List (String × String))) :
    String :=
  let sender := jsTrim msg.formattedName
  match senderMapping with
  | some m =>
      match mapGet m sender with
      | some v => v
      | none => normalizeSenderNameNoMap msg
  | none => normalizeSenderNameNoMap msg

/-- The per-sender statistics record of `buildSenderMapping`.  The source also
maintains an `avgMessageLength` float that no decision ever reads; it is
omitted. -/
structure SenderStats where
  count : Nat
  displayNames : List String
  isPhone : Bool
  isYou : Bool
  sampleMessages : List String
deriving DecidableEq, Repr

/-- One iteration of the statistics-collection loop of `buildSenderMapping`. -/
def statsStep (stats : List (String × SenderStats)) (msg : Message) :
    List (String × SenderStats) :=
  let sender := jsTrim msg.formattedName
  let displayName := jsTrim msg.displayName
  let body := jsTrim msg.messageBody
  let stats1 :=
    if mapHas stats sender then stats
    else stats ++ [(sender,
      { count := 0, displayNames := [], isPhone := phoneTest sender,
        isYou := sender = "You", sampleMessages := [] })]
  stats1.map fun p =>
    if p.1 = sender then
      (p.1,
        { p.2 with
          count := p.2.count + 1
          displayNames :=
            if displayName ≠ "" ∧ displayName ∉ p.2.displayNames
            then p.2.displayNames ++ [displayName]
            else p.2.displayNames
          sampleMessages :=
            if p.2.sampleMessages.length < 5
            then p.2.sampleMessages ++ [jsTake body 100]
            else p.2.sampleMessages })
    else p

/-- `calculateMessageSimilarity`, as an exact rational.  The set sizes involved
are far below the range where double rounding could flip the `> 0.2`
comparison, so the rational value is an exact model of the float. -/
def calculateMessageSimilarity (messages1 messages2 : List String) : ℚ :=
  if messages1.length = 0 ∨ messages2.length = 0 then 0
  else
    let words1 := jsSetOf (jsSplitWs (jsToLower (joinSpace messages1)))
    let words2 := jsSetOf (jsSplitWs (jsToLower (joinSpace messages2)))
    let inter := words1.filter fun w => w ∈ words2
    let union := jsSetOf (words1 ++ words2)
    (inter.length : ℚ) / (union.length : ℚ)

/-- The test `calculateMessageSimilarity(...) > 0.2` of `buildSenderMapping`,
stated as the equivalent integer inequality so that the definition evaluates by
kernel reduction; `simGtFifth_iff` below proves it equal to the rational
comparison. -/
def simGtFifth (messages1 messages2 : List String) : Bool :=
  if messages1.length = 0 ∨ messages2.length = 0 then false
  else
    let words1 := jsSetOf (jsSplitWs (jsToLower (joinSpace messages1)))
    let words2 := jsSetOf (jsSplitWs (jsToLower (joinSpace messages2)))
    let inter := words1.filter fun w => w ∈ words2
    let union := jsSetOf (words1 ++ words2)
    decide (5 * inter.length > union.length)

/-- The `"You"`-handling block of `buildSenderMapping`: map the `"You"` sender
to `"SELF"`, and the first name-sender with more than 3 messages and sample
similarity above 0.2 likewise. -/
def mappingStage1 (youStats : Option (String × SenderStats))
    (nameStats : List (String × SenderStats)) : List (String × String) :=
  match youStats with
  | some you =>
      let m := mapSet [] you.1 "SELF"
      match nameStats.find? (fun p => p.2.count > 3 ∧
          simGtFifth you.2.sampleMessages p.2.sampleMessages = true) with
      | some hit => mapSet m hit.1 "SELF"
      | none => m
  | none => []

/-- The phone-number block of `buildSenderMapping`. -/
def mappingStage2 (phoneStats : List (String × SenderStats))
    (m : List (String × String)) : List (String × String) :=
  phoneStats.foldl (fun m p => mapSet m p.1 (stripPhone p.1)) m

/-- The display-name block of `buildSenderMapping`. -/
def mappingStage3 (nameStats : List (String × SenderStats))
    (m : List (String × String)) : List (String × String) :=
  nameStats.foldl (fun m p =>
    if mapHas m p.1 then m
    else
      match p.2.displayNames with
      | d :: _ => mapSet m p.1 d
      | [] => mapSet m p.1 (extractShortName p.1)) m

/-- `buildSenderMapping(jsonMessages, nativeMessages)`. -/
def buildSenderMapping (jsonMessages nativeMessages : List Message) :
    List (String × String) :=
  let allMessages := jsonMessages ++ nativeMessages
  let senderStats := allMessages.foldl statsStep []
  let youStats := senderStats.find? fun p => p.2.isYou
  let phoneStats := senderStats.filter fun p => p.2.isPhone
  let nameStats := senderStats.filter fun p => ¬ p.2.isPhone ∧ ¬ p.2.isYou
  mappingStage3 nameStats (mappingStage2 phoneStats (mappingStage1 youStats nameStats))

/-! ### Message fingerprints -/

/-- `createMessageHash(msg, senderMapping)`: the 32-bit content hash.  The
source returns `hash.toString()`; decimal rendering is injective, so the
integer is kept as the key. -/
def createMessageHash (msg : Message) (senderMapping : Option (List (String × String))) :
    Int :=
  let normalizedBody := jsTrim msg.messageBody
  let normalizedSender := normalizeSenderName msg senderMapping
  let normalizedType := if msg.messageType = "" then "chat" else msg.messageType
  jsStringHash (normalizedSender ++ ":" ++ normalizedType ++ ":" ++ normalizedBody)

/-- `Math.floor(msg.timestamp / 300000) * 300000` rendered into the template
literal; `NaN` timestamps print as `"NaN"`.  (The float division is exact for
every reachable timestamp magnitude.) -/
def roundedTimestampStr (ts : Option Int) : String :=
  match ts with
  | some t => toString (Int.fdiv t 300000 * 300000)
  | none => "NaN"

/-- `createTimeAwareHash(msg, senderMapping)`. -/
def createTimeAwareHash (msg : Message) (senderMapping : Option (List (String × String))) :
    String :=
  let normalizedBody := jsTrim msg.messageBody
  let normalizedSender := normalizeSenderName msg senderMapping
  let normalizedType := if msg.messageType = "" then "chat" else msg.messageType
  normalizedSender ++ ":" ++ normalizedType ++ ":" ++ normalizedBody ++ ":" ++
    roundedTimestampStr msg.timestamp

/-! ### The merge engine -/

/-- The sort comparator `(a, b) => a.timestamp - b.timestamp`, as the
"`a` need not come after `b`" relation of a stable sort: true when the
difference is `≤ 0` or `NaN` (a `NaN` comparison is treated as equal). -/
def jsLeB (a b : Message) : Bool :=
  match a.timestamp, b.timestamp with
  | some x, some y => decide (x ≤ y)
  | _, _ => true

/-- `jsLeB` as a relation, for `List.insertionSort`. -/
def jsLe (a b : Message) : Prop := jsLeB a b = true

instance : DecidableRel jsLe := fun a b => inferInstanceAs (Decidable (jsLeB a b = true))

/-- The deduplication loop of `mergeMessages`: walks the sorted list keeping
the two seen-fingerprint sets (`Set` membership is all the source uses, so the
sets are lists).  Returns the kept messages and the final seen sets. -/
def dedupRun (sm : Option (List (String × String))) :
    List Message → List Int → List String → List Message × List Int × List String
  | [], seenC, seenT => ([], seenC, seenT)
  | m :: rest, seenC, seenT =>
      let contentHash := createMessageHash m sm
      let timeAwareHash := createTimeAwareHash m sm
      if contentHash ∈ seenC then dedupRun sm rest seenC seenT
      else if timeAwareHash ∈ seenT then dedupRun sm rest seenC seenT
      else
        let r := dedupRun sm rest (contentHash :: seenC) (timeAwareHash :: seenT)
        (m :: r.1, r.2)

/-- `mergeMessages` with the sender mapping squeezed out as a parameter: the
source computes `senderMapping` once and then runs sort + dedup.  V8's
`Array.prototype.sort` is stable; `List.insertionSort` with the
`jsLe` comparator is the same stable sort whenever the comparator is
consistent (which holds unless a `NaN` timestamp is present). -/
def mergeMessagesWith (sm : Option (List (String × String)))
    (jsonMessages nativeMessages : List Message) : List Message :=
  let allMessages := (jsonMessages ++ nativeMessages).insertionSort jsLe
  (dedupRun sm allMessages [] []).1

/-- `mergeMessages(jsonMessages, nativeMessages)`. -/
def mergeMessages (jsonMessages nativeMessages : List Message) : List Message :=
  mergeMessagesWith (some (buildSenderMapping jsonMessages nativeMessages))
    jsonMessages nativeMessages

/-! ### Serialization back to the transcript format -/

/-- `convertToNativeDate(isoDate, originalFormat)`.  An unparseable
`messageTime` makes every `Date` getter return `NaN`, rendered faithfully. -/
def convertToNativeDate (isoDate : String) (originalFormat : String := "US") : String :=
  match jsonDateToMillis isoDate with
  | some ms =>
      let f := fieldsOfMillis ms
      let month := f.2.1.toNat
      let day := f.2.2.1.toNat
      let year := f.1.toNat
      let hours := f.2.2.2.1
      let minutes := pad2 f.2.2.2.2.1
      let seconds := pad2 f.2.2.2.2.2
      if originalFormat = "EU" then
        "[" ++ pad2 day ++ "." ++ pad2 month ++ "." ++ toString year ++ ", " ++
          pad2 hours ++ ":" ++ minutes ++ ":" ++ seconds ++ "]"
      else if originalFormat = "EU_NO_BRACKETS" then
        pad2 day ++ "." ++ pad2 month ++ "." ++ toString year ++ ", " ++
          pad2 hours ++ ":" ++ minutes ++ ":" ++ seconds
      else
        toString month ++ "/" ++ toString day ++ "/" ++ jsSliceLast2 (toString year) ++
          ", " ++ toString hours ++ ":" ++ minutes
  | none =>
      if originalFormat = "EU" then "[NaN.NaN.NaN, NaN:NaN:NaN]"
      else if originalFormat = "EU_NO_BRACKETS" then "NaN.NaN.NaN, NaN:NaN:NaN"
      else "NaN/NaN/aN, NaN:NaN"

/-- `msg.displayName || msg.formattedName || msg.phoneNum` (the model's `""`
stands for both the empty string and `null`; a `null` would render as the word
"null", which no claim touches). -/
def senderNameFor (msg : Message) : String :=
  if msg.displayName ≠ "" then msg.displayName
  else if msg.formattedName ≠ "" then msg.formattedName
  else msg.phoneNum

/-- The line `messagesToNative` writes for one message. -/
def nativeLine (msg : Message) : String :=
  let nativeDate := convertToNativeDate msg.messageTime msg.originalDateFormat
  let senderName := senderNameFor msg
  let euStyle := msg.originalDateFormat = "EU" ∨ msg.originalDateFormat = "EU_NO_BRACKETS"
  if msg.messageType = "chat" then
    if euStyle then nativeDate ++ " " ++ senderName ++ ": " ++ msg.messageBody
    else nativeDate ++ " - " ++ senderName ++ ": " ++ msg.messageBody
  else
    if euStyle then nativeDate ++ " " ++ senderName ++ ": " ++ msg.messageBody ++ " (file attached)"
    else nativeDate ++ " - " ++ senderName ++ ": " ++ msg.messageBody ++ " (file attached)"

/-- `messagesToNative(messages)`: encryption-notice header (US-styled from the
first message), then one line per message. -/
def messagesToNative (messages : List Message) : String :=
  let header :=
    match messages with
    | [] => ""
    | m :: _ =>
        let firstDate := convertToNativeDate m.messageTime
        firstDate ++ " - Messages and calls are end-to-end encrypted. Only people in this chat can read, listen to, or share them. Learn more.\n" ++
          firstDate ++ " - \n"
  header ++ String.join (messages.map fun m => nativeLine m ++ "\n")

/-! ### The media reconciler -/

/-- The file system visible to `syncMediaFiles`: sets (lists) of existing file
and directory paths. -/
structure FileSys where
  files : List String
  dirs : List String
deriving DecidableEq, Repr

/-- `path.join` (POSIX, for the simple relative components the program uses). -/
def pathJoin (a b : String) : String := a ++ "/" ++ b

/-- `getDirectoryForMessageType(messageType)`. -/
def getDirectoryForMessageType (messageType : String) : String :=
  if messageType = "image" then "image"
  else if messageType = "document" ∨ messageType = "pdf" then "document"
  else if messageType = "video" then "video"
  else if messageType = "audio" then "audio"
  else if messageType = "sticker" then "sticker"
  else "document"

/-- The `mediaTypes` list of `syncMediaFiles`. -/
def mediaTypes : List String := ["image", "document", "video", "audio"]

/-- `syncMediaFiles(chatDir, messages)`: ensure the four media directories,
then for each attachment message whose file is missing from its canonical
directory, copy the first hit among the four media-type directories, else warn.
Returns the resulting file system and the `console.warn` lines.  (A
`copyFileSync` failure is environmental and modelled as never happening.) -/
def syncMediaFiles (chatDir : String) (messages : List Message) (fs : FileSys) :
    FileSys × List String :=
  let fs1 := mediaTypes.foldl
    (fun f t =>
      let d := pathJoin chatDir t
      if d ∈ f.dirs then f else { f with dirs := f.dirs ++ [d] }) fs
  let attachmentMessages := messages.filter fun m => m.isAttachment ∧ m.messageBody ≠ ""
  attachmentMessages.foldl
    (fun acc msg =>
      let filename := msg.messageBody
      let sourceDir := getDirectoryForMessageType msg.messageType
      let sourceFile := pathJoin (pathJoin chatDir sourceDir) filename
      if sourceFile ∈ acc.1.files then acc
      else
        match mediaTypes.find? (fun t => pathJoin (pathJoin chatDir t) filename ∈ acc.1.files) with
        | some _ => ({ acc.1 with files := acc.1.files ++ [sourceFile] }, acc.2)
        | none => (acc.1, acc.2 ++ ["Media file not found: " ++ filename]))
    (fs1, [])

/-! ### Concrete instances used by the claims -/

/-- A fixed `Math.random()` oracle for concrete parser runs. -/
def rndO : Nat → String := fun _ => "0.5"

def c1you : Message :=
  { formattedName := "You", messageBody := "hello",
    messageTime := "1970-01-01 00:00:00", timestamp := some 0 }

def c1mike1 : Message := { formattedName := "Mike", messageBody := "hello", timestamp := some 600000 }

def c1mike2 : Message := { formattedName := "Mike", messageBody := "zzz", timestamp := some 1200000 }

def c1A : List Message := [c1you, c1mike1, c1mike2]

def c2you : Message := { formattedName := "You", messageBody := "hello", timestamp := some 0 }

def c2m : Message := { formattedName := "Mike", messageBody := "hello", timestamp := some 600000 }

def c2run1 : List Message := [c2you, c2m]

def c2run2 : List Message := [c2you, c2m,
  { formattedName := "Mike", messageBody := "b1", timestamp := some 1200000 },
  { formattedName := "Mike", messageBody := "c1", timestamp := some 1800000 },
  { formattedName := "Mike", messageBody := "d1", timestamp := some 2400000 }]

def c3jm : Message :=
  { formattedName := "Alice", messageBody := "hi", timestamp := some 0, source := "json" }

def c3nm : Message :=
  { formattedName := "Alice", messageBody := "hi", timestamp := some 200000, source := "native" }

def c4js : List Message := [c1mike1, { formattedName := "Bob", messageBody := "b", timestamp := some 100 }]

def c5m1 : Message := { formattedName := "Alice", messageBody := "Aa", timestamp := some 0 }

def c5m2 : Message := { formattedName := "Alice", messageBody := "BB", timestamp := some 0 }

def c5m2' : Message := { formattedName := "Alice", messageBody := "BC", timestamp := some 0 }

def c6input : String := "1/1/25, 12:00 - Alice: img.jpg (file attached)\nhello - world"

def c6att : Message :=
  { formattedName := "Alice", messageTime := "2025-01-01 12:00:00",
    messageType := "image", messageBody := "img.jpg", timestamp := some 1735732800000,
    source := "native", isAttachment := true }

def c6st : NativeParseState := { messages := [], current := some c6att, rndIdx := 1 }

def c8msg : Message := { messageBody := "photo.jpg", messageType := "image", isAttachment := true }

def c8fs : FileSys := { files := ["chat/native_backups/photo.jpg"], dirs := [] }

def c9m : Message := { formattedName := "" }

def c10rec : JsonRecord :=
  { formattedName := "Bob", messageTime := "2025-01-01 12:05:00", messageBody := "hey" }

def c10m : Message :=
  { country := "Unknown", phoneNum := "", formattedName := "Bob", displayName := "",
    messageTime := "2025-01-01 12:05:00", messageType := "chat", messageBody := "hey",
    messageId := "", timestamp := some 1735733100000, source := "json",
    isAttachment := false, originalDateFormat := "US" }

/-! ### Proof infrastructure: the sort and its stability -/

/-- The numeric key the comparator compares once no `NaN` is involved. -/
def keyOf (m : Message) : Int := m.timestamp.getD 0

/-- The comparator as a total preorder on the key, agreeing with `jsLe` on
messages whose timestamps parsed. -/
def keyLe (a b : Message) : Prop := keyOf a ≤ keyOf b

instance : DecidableRel keyLe := fun a b => inferInstanceAs (Decidable (keyOf a ≤ keyOf b))

instance : IsTotal Message keyLe := ⟨fun a b => Int.le_total (keyOf a) (keyOf b)⟩

instance : IsTrans Message keyLe := ⟨fun _ _ _ h1 h2 => le_trans h1 h2⟩

/-- The timestamp-class of key `k` inside a list: the subsequence of messages
whose key is `k`.  A stable sort preserves each class. -/
def clsK (k : Int) (l : List Message) : List Message :=
  l.filter fun m => decide (keyOf m = k)

/-- The statistics invariant: collected display names are non-empty and the
`isPhone` flag records the phone test of the key. -/
def statsInv (stats : List (String × SenderStats)) : Prop :=
  ∀ p ∈ stats, (∀ d ∈ p.2.displayNames, d ≠ "") ∧ p.2.isPhone = phoneTest p.1

theorem jsLe_iff_keyLe {a b : Message} (ha : a.timestamp.isSome) (hb : b.timestamp.isSome) :
    jsLe a b ↔ keyLe a b := by
  rcases hx : a.timestamp with _ | x
  · simp [hx] at ha
  · rcases hy : b.timestamp with _ | y
    · simp [hy] at hb
    · simp [jsLe, jsLeB, keyLe, keyOf, hx, hy]

theorem orderedInsert_congr {r s : Message → Message → Prop}
    [DecidableRel r] [DecidableRel s] {a : Message} {l : List Message}
    (h : ∀ b ∈ l, r a b ↔ s a b) :
    l.orderedInsert r a = l.orderedInsert s a := by
  induction l with
  | nil => rfl
  | cons b l ih =>
      have hb := h b (List.mem_cons_self _ _)
      by_cases hr : r a b
      · rw [List.orderedInsert, List.orderedInsert, if_pos hr, if_pos (hb.mp hr)]
      · rw [List.orderedInsert, List.orderedInsert, if_neg hr, if_neg (fun hs => hr (hb.mpr hs)),
          ih (fun x hx => h x (List.mem_cons_of_mem _ hx))]

theorem insertionSort_congr {r s : Message → Message → Prop}
    [DecidableRel r] [DecidableRel s] {l : List Message}
    (h : ∀ a ∈ l, ∀ b ∈ l, r a b ↔ s a b) :
    l.insertionSort r = l.insertionSort s := by
  induction l with
  | nil => rfl
  | cons a l ih =>
      rw [List.insertionSort, List.insertionSort,
        ih (fun x hx y hy => h x (List.mem_cons_of_mem _ hx) y (List.mem_cons_of_mem _ hy))]
      exact orderedInsert_congr fun b hb =>
        h a (List.mem_cons_self _ _) b (List.mem_cons_of_mem _ ((List.mem_insertionSort s).mp hb))

/-- On inputs whose timestamps all parsed, the `NaN`-aware comparator is the
key comparator. -/
theorem sort_jsLe_eq_keyLe {l : List Message} (h : ∀ m ∈ l, m.timestamp.isSome) :
    l.insertionSort jsLe = l.insertionSort keyLe :=
  insertionSort_congr fun a ha b hb => jsLe_iff_keyLe (h a ha) (h b hb)

/-- The kept list of the dedup loop is a sublist of its input. -/
theorem dedupRun_sublist (sm : Option (List (String × String))) :
    ∀ (l : List Message) (c : List Int) (t : List String),
      List.Sublist (dedupRun sm l c t).1 l := by
  intro l
  induction l with
  | nil => intro c t; simp [dedupRun]
  | cons m rest ih =>
      intro c t
      rw [dedupRun]
      split
      · exact (ih c t).trans (List.sublist_cons_self m rest)
      · split
        · exact (ih c t).trans (List.sublist_cons_self m rest)
        · exact List.Sublist.cons₂ m (ih _ _)

/-- Membership in the merge output implies membership in one of the inputs. -/
theorem mem_of_mem_mergeMessagesWith {sm : Option (List (String × String))}
    {js ns : List Message} {m : Message} (h : m ∈ mergeMessagesWith sm js ns) :
    m ∈ js ++ ns := by
  unfold mergeMessagesWith at h
  simp only at h
  have h1 := (dedupRun_sublist sm _ [] []).mem h
  exact (List.perm_insertionSort jsLe (js ++ ns)).mem_iff.mp h1

theorem clsK_orderedInsert (k : Int) (a : Message) (l : List Message) :
    clsK k (l.orderedInsert keyLe a) = clsK k (a :: l) := by
  simp only [clsK, List.orderedInsert_eq_take_drop, List.filter_append, List.filter_cons]
  by_cases hk : keyOf a = k
  · have htake : List.filter (fun m => decide (keyOf m = k))
        (List.takeWhile (fun b => decide ¬ keyLe a b) l) = [] := by
      rw [List.filter_eq_nil_iff]
      intro b hb
      have hlt := List.mem_takeWhile_imp hb
      simp only [decide_eq_true_eq] at hlt ⊢
      intro hbk
      exact hlt (by rw [keyLe, hk, hbk])
    rw [if_pos (by simpa using hk), if_pos (by simpa using hk), htake, List.nil_append]
    congr 1
    conv_rhs => rw [← List.takeWhile_append_dropWhile (fun b => decide ¬ keyLe a b) l]
    rw [List.filter_append, htake, List.nil_append]
  · rw [if_neg (by simpa using hk), if_neg (by simpa using hk)]
    conv_rhs => rw [← List.takeWhile_append_dropWhile (fun b => decide ¬ keyLe a b) l]
    rw [List.filter_append]

/-- Stability of the sort: each timestamp-class of the output is the
corresponding subsequence of the input, in input order. -/
theorem clsK_insertionSort (k : Int) (l : List Message) :
    clsK k (l.insertionSort keyLe) = clsK k l := by
  induction l with
  | nil => rfl
  | cons a l ih =>
      rw [List.insertionSort, clsK_orderedInsert]
      simp only [clsK, List.filter_cons] at ih ⊢
      by_cases hk : keyOf a = k
      · rw [if_pos (by simpa using hk), if_pos (by simpa using hk), ih]
      · rw [if_neg (by simpa using hk), if_neg (by simpa using hk), ih]

/-! ### Dedup-loop lemmas -/

theorem dedupRun_append (sm : Option (List (String × String))) (A B : List Message)
    (c : List Int) (t : List String) :
    dedupRun sm (A ++ B) c t =
      ((dedupRun sm A c t).1 ++
        (dedupRun sm B (dedupRun sm A c t).2.1 (dedupRun sm A c t).2.2).1,
       (dedupRun sm B (dedupRun sm A c t).2.1 (dedupRun sm A c t).2.2).2) := by
  induction A generalizing c t with
  | nil => simp [dedupRun]
  | cons m rest ih =>
      rw [List.cons_append, dedupRun, dedupRun]
      split
      · exact ih c t
      · split
        · exact ih c t
        · simp only
          rw [ih]
          simp

theorem dedupRun_all_seen (sm : Option (List (String × String))) {l : List Message}
    {c : List Int} (t : List String) (h : ∀ m ∈ l, createMessageHash m sm ∈ c) :
    dedupRun sm l c t = ([], c, t) := by
  induction l with
  | nil => rfl
  | cons m rest ih =>
      rw [dedupRun, if_pos (h m (List.mem_cons_self _ _))]
      exact ih fun x hx => h x (List.mem_cons_of_mem _ hx)

theorem dedupRun_all_fresh (sm : Option (List (String × String))) :
    ∀ {l : List Message} {c : List Int} {t : List String},
      (l.map (createMessageHash · sm)).Nodup →
      (l.map (createTimeAwareHash · sm)).Nodup →
      (∀ m ∈ l, createMessageHash m sm ∉ c ∧ createTimeAwareHash m sm ∉ t) →
      dedupRun sm l c t =
        (l, (l.map (createMessageHash · sm)).reverse ++ c,
            (l.map (createTimeAwareHash · sm)).reverse ++ t) := by
  intro l
  induction l with
  | nil => intro c t _ _ _; rfl
  | cons m rest ih =>
      intro c t h1 h2 h3
      have hm := h3 m (List.mem_cons_self _ _)
      rw [dedupRun, if_neg hm.1, if_neg hm.2]
      simp only [List.map_cons, List.nodup_cons] at h1 h2
      have hrest := ih h1.2 h2.2 (fun x hx =>
        ⟨fun hmem => by
          rcases List.mem_cons.mp hmem with heq | hc2
          · exact h1.1 (by
              have hm2 := List.mem_map_of_mem (fun y => createMessageHash y sm) hx
              simpa [heq] using hm2)
          · exact (h3 x (List.mem_cons_of_mem _ hx)).1 hc2,
         fun hmem => by
          rcases List.mem_cons.mp hmem with heq | hc2
          · exact h2.1 (by
              have hm2 := List.mem_map_of_mem (fun y => createTimeAwareHash y sm) hx
              simpa [heq] using hm2)
          · exact (h3 x (List.mem_cons_of_mem _ hx)).2 hc2⟩)
      rw [hrest]
      simp [List.reverse_cons, List.append_assoc]

theorem dedupRun_kept_props (sm : Option (List (String × String))) :
    ∀ (l : List Message) (c : List Int) (t : List String),
      ((dedupRun sm l c t).1.map (createMessageHash · sm)).Nodup ∧
      ((dedupRun sm l c t).1.map (createTimeAwareHash · sm)).Nodup ∧
      (∀ m ∈ (dedupRun sm l c t).1,
        createMessageHash m sm ∉ c ∧ createTimeAwareHash m sm ∉ t) := by
  intro l
  induction l with
  | nil => intro c t; simp [dedupRun]
  | cons m rest ih =>
      intro c t
      rw [dedupRun]
      split
      · exact ih c t
      · split
        · exact ih c t
        · rename_i hc ht
          simp only [List.map_cons, List.nodup_cons]
          obtain ⟨ih1, ih2, ih3⟩ := ih (createMessageHash m sm :: c) (createTimeAwareHash m sm :: t)
          refine ⟨⟨?_, ih1⟩, ⟨?_, ih2⟩, ?_⟩
          · intro hmem
            obtain ⟨x, hx, hxe⟩ := List.mem_map.mp hmem
            exact (ih3 x hx).1 (hxe ▸ List.mem_cons_self _ _)
          · intro hmem
            obtain ⟨x, hx, hxe⟩ := List.mem_map.mp hmem
            exact (ih3 x hx).2 (hxe ▸ List.mem_cons_self _ _)
          · intro x hx
            rcases List.mem_cons.mp hx with hx | hx
            · subst hx; exact ⟨hc, ht⟩
            · exact ⟨fun hmem => (ih3 x hx).1 (List.mem_cons_of_mem _ hmem),
                fun hmem => (ih3 x hx).2 (List.mem_cons_of_mem _ hmem)⟩

/-! ### The doubled-input dedup argument -/

theorem filter_key_takeWhile {k₀ : Int} :
    ∀ {l : List Message}, l.Pairwise keyLe → (∀ m ∈ l, k₀ ≤ keyOf m) →
      clsK k₀ l = l.takeWhile fun m => decide (keyOf m = k₀) := by
  intro l
  induction l with
  | nil => intro _ _; rfl
  | cons h l ih =>
      intro hp hmin
      have hrel : ∀ b ∈ l, keyLe h b := fun b hb => List.rel_of_pairwise_cons hp hb
      by_cases hk : keyOf h = k₀
      · rw [clsK, List.filter_cons, if_pos (by simpa using hk),
          List.takeWhile_cons, if_pos (by simpa using hk)]
        rw [clsK] at ih
        rw [ih hp.of_cons fun m hm => hmin m (List.mem_cons_of_mem _ hm)]
      · have hlt : k₀ < keyOf h :=
          lt_of_le_of_ne (hmin h (List.mem_cons_self _ _)) (fun heq => hk heq.symm)
        rw [clsK, List.filter_cons, if_neg (by simpa using hk),
          List.takeWhile_cons, if_neg (by simpa using hk)]
        rw [List.filter_eq_nil_iff]
        intro b hb
        simp only [decide_eq_true_eq]
        intro hbk
        have := hrel b hb
        rw [keyLe, hbk] at this
        omega

theorem dropWhile_key_ne {k₀ : Int} :
    ∀ {l : List Message}, l.Pairwise keyLe → (∀ m ∈ l, k₀ ≤ keyOf m) →
      ∀ m ∈ l.dropWhile (fun m => decide (keyOf m = k₀)), keyOf m ≠ k₀ := by
  intro l
  induction l with
  | nil => intro _ _ m hm; simp [List.dropWhile] at hm
  | cons h l ih =>
      intro hp hmin m hm
      have hrel : ∀ b ∈ l, keyLe h b := fun b hb => List.rel_of_pairwise_cons hp hb
      by_cases hk : keyOf h = k₀
      · rw [List.dropWhile_cons, if_pos (by simpa using hk)] at hm
        exact ih hp.of_cons (fun x hx => hmin x (List.mem_cons_of_mem _ hx)) m hm
      · rw [List.dropWhile_cons, if_neg (by simpa using hk)] at hm
        have hlt : k₀ < keyOf h :=
          lt_of_le_of_ne (hmin h (List.mem_cons_self _ _)) (fun heq => hk heq.symm)
        rcases List.mem_cons.mp hm with rfl | hm
        · exact hk
        · have := hrel m hm
          rw [keyLe] at this
          omega

theorem clsK_of_clsK_ne {k k₀ : Int} (hne : k ≠ k₀) (l : List Message) :
    clsK k (clsK k₀ l) = [] := by
  rw [clsK, List.filter_eq_nil_iff]
  intro b hb
  have := (List.mem_filter.mp hb).2
  simp only [decide_eq_true_eq] at this ⊢
  intro hbk
  exact hne (hbk ▸ this ▸ rfl)

/-- Feeding a doubled copy of an already-merged list through the dedup loop
gives the list back: the stable sort interleaves each timestamp class with its
copy, and the seen-set logic keeps exactly the first copies. -/
theorem dedup_doubled (sm : Option (List (String × String))) :
    ∀ (n : Nat) (S M : List Message) (c : List Int) (t : List String),
      S.length ≤ n → S.Pairwise keyLe → M.Pairwise keyLe →
      (∀ k, clsK k S = clsK k M ++ clsK k M) →
      (M.map (createMessageHash · sm)).Nodup →
      (M.map (createTimeAwareHash · sm)).Nodup →
      (∀ m ∈ M, createMessageHash m sm ∉ c ∧ createTimeAwareHash m sm ∉ t) →
      (dedupRun sm S c t).1 = M := by
  intro n
  induction n with
  | zero =>
      intro S M c t hlen _ _ hcls _ _ _
      have hS0 : S = [] := List.length_eq_zero.mp (Nat.le_zero.mp hlen)
      subst hS0
      cases M with
      | nil => rfl
      | cons m M' =>
          exfalso
          have := hcls (keyOf m)
          rw [show clsK (keyOf m) ([] : List Message) = [] from rfl] at this
          have hmem : m ∈ clsK (keyOf m) (m :: M') := by
            rw [clsK]
            exact List.mem_filter.mpr ⟨List.mem_cons_self _ _, by simp⟩
          rw [(List.append_eq_nil.mp this.symm).1] at hmem
          simp at hmem
  | succ n ih =>
      intro S M c t hlen hS hM hcls h1 h2 h3
      cases S with
      | nil =>
          cases M with
          | nil => rfl
          | cons m M' =>
              exfalso
              have := hcls (keyOf m)
              rw [show clsK (keyOf m) ([] : List Message) = [] from rfl] at this
              have hmem : m ∈ clsK (keyOf m) (m :: M') := by
                rw [clsK]
                exact List.mem_filter.mpr ⟨List.mem_cons_self _ _, by simp⟩
              rw [(List.append_eq_nil.mp this.symm).1] at hmem
              simp at hmem
      | cons s S' =>
          have hminS : ∀ m ∈ s :: S', keyOf s ≤ keyOf m := by
            intro m hm
            rcases List.mem_cons.mp hm with rfl | hm
            · exact le_refl _
            · exact List.rel_of_pairwise_cons hS hm
          have hT := filter_key_takeWhile hS hminS
          have hsplitS : s :: S' = clsK (keyOf s) (s :: S') ++
              (s :: S').dropWhile (fun m => decide (keyOf m = keyOf s)) := by
            rw [hT, List.takeWhile_append_dropWhile]
          have hDne := dropWhile_key_ne hS hminS
          -- minimality of keyOf s over M
          have hminM : ∀ m ∈ M, keyOf s ≤ keyOf m := by
            intro m hm
            have hmem : m ∈ clsK (keyOf m) M := by
              rw [clsK]
              exact List.mem_filter.mpr ⟨hm, by simp⟩
            have hne : clsK (keyOf m) (s :: S') ≠ [] := by
              rw [hcls]
              intro h
              rw [List.append_eq_nil] at h
              rw [h.1] at hmem
              simp at hmem
            obtain ⟨x, hx⟩ := List.exists_mem_of_ne_nil _ hne
            have hx2 := List.mem_filter.mp hx
            have hkey : keyOf x = keyOf m := by simpa using hx2.2
            have := hminS x hx2.1
            omega
          have hTM := filter_key_takeWhile hM hminM
          have hsplitM : M = clsK (keyOf s) M ++
              M.dropWhile (fun m => decide (keyOf m = keyOf s)) := by
            rw [hTM, List.takeWhile_append_dropWhile]
          have hDMne := dropWhile_key_ne hM hminM
          have hclsk0 := hcls (keyOf s)
          have hSeq : s :: S' = (clsK (keyOf s) M ++ clsK (keyOf s) M) ++
              (s :: S').dropWhile (fun m => decide (keyOf m = keyOf s)) := by
            rw [← hclsk0]; exact hsplitS
          -- abbreviations
          have hCsubM : List.Sublist (clsK (keyOf s) M) M := List.filter_sublist M
          have hDMsubM : List.Sublist (M.dropWhile (fun m => decide (keyOf m = keyOf s))) M :=
            List.dropWhile_sublist _
          have hDsubS : List.Sublist ((s :: S').dropWhile (fun m => decide (keyOf m = keyOf s)))
              (s :: S') := List.dropWhile_sublist _
          have h1C := h1.sublist (hCsubM.map (createMessageHash · sm))
          have h2C := h2.sublist (hCsubM.map (createTimeAwareHash · sm))
          have h3C : ∀ m ∈ clsK (keyOf s) M,
              createMessageHash m sm ∉ c ∧ createTimeAwareHash m sm ∉ t :=
            fun m hm => h3 m (hCsubM.mem hm)
          -- C is nonempty
          have hCne : clsK (keyOf s) M ≠ [] := by
            intro h
            have : clsK (keyOf s) (s :: S') = [] := by rw [hclsk0, h]; rfl
            have hmem : s ∈ clsK (keyOf s) (s :: S') := by
              rw [clsK]
              exact List.mem_filter.mpr ⟨List.mem_cons_self _ _, by simp⟩
            rw [this] at hmem
            simp at hmem
          -- run the dedup over the decomposition
          rw [hSeq, dedupRun_append, dedupRun_append]
          rw [dedupRun_all_fresh sm h1C h2C h3C]
          simp only
          have hseen : ∀ m ∈ clsK (keyOf s) M,
              createMessageHash m sm ∈
                ((clsK (keyOf s) M).map (createMessageHash · sm)).reverse ++ c := by
            intro m hm
            exact List.mem_append.mpr (Or.inl (List.mem_reverse.mpr (List.mem_map_of_mem _ hm)))
          rw [dedupRun_all_seen sm _ hseen]
          simp only [List.append_nil]
          -- apply the inductive hypothesis to the remainder
          have hlenD : ((s :: S').dropWhile (fun m => decide (keyOf m = keyOf s))).length ≤ n := by
            have hlenS := congrArg List.length hSeq
            simp only [List.length_append, List.length_cons] at hlenS
            simp only [List.length_cons] at hlen
            have hCpos : 0 < (clsK (keyOf s) M).length :=
              List.length_pos.mpr hCne
            omega
          have hPD : ((s :: S').dropWhile (fun m => decide (keyOf m = keyOf s))).Pairwise keyLe :=
            hS.sublist hDsubS
          have hPDM : (M.dropWhile (fun m => decide (keyOf m = keyOf s))).Pairwise keyLe :=
            hM.sublist hDMsubM
          have hclsD : ∀ k, clsK k ((s :: S').dropWhile (fun m => decide (keyOf m = keyOf s))) =
              clsK k (M.dropWhile (fun m => decide (keyOf m = keyOf s))) ++
              clsK k (M.dropWhile (fun m => decide (keyOf m = keyOf s))) := by
            intro k
            by_cases hk : k = keyOf s
            · subst hk
              have hD0 : clsK (keyOf s)
                  ((s :: S').dropWhile (fun m => decide (keyOf m = keyOf s))) = [] := by
                rw [clsK, List.filter_eq_nil_iff]
                intro b hb
                simp only [decide_eq_true_eq]
                exact hDne b hb
              have hDM0 : clsK (keyOf s)
                  (M.dropWhile (fun m => decide (keyOf m = keyOf s))) = [] := by
                rw [clsK, List.filter_eq_nil_iff]
                intro b hb
                simp only [decide_eq_true_eq]
                exact hDMne b hb
              rw [hD0, hDM0]; rfl
            · have e1 : clsK k (s :: S') =
                  clsK k ((s :: S').dropWhile (fun m => decide (keyOf m = keyOf s))) := by
                conv_lhs => rw [hsplitS]
                rw [clsK, List.filter_append, ← clsK, ← clsK, clsK_of_clsK_ne hk, List.nil_append]
              have e2 : clsK k M =
                  clsK k (M.dropWhile (fun m => decide (keyOf m = keyOf s))) := by
                conv_lhs => rw [hsplitM]
                rw [clsK, List.filter_append, ← clsK, ← clsK, clsK_of_clsK_ne hk, List.nil_append]
              rw [← e1, ← e2]
              exact hcls k
          have h1D := h1.sublist (hDMsubM.map (createMessageHash · sm))
          have h2D := h2.sublist (hDMsubM.map (createTimeAwareHash · sm))
          have h3D : ∀ m ∈ M.dropWhile (fun m => decide (keyOf m = keyOf s)),
              createMessageHash m sm ∉
                ((clsK (keyOf s) M).map (createMessageHash · sm)).reverse ++ c ∧
              createTimeAwareHash m sm ∉
                ((clsK (keyOf s) M).map (createTimeAwareHash · sm)).reverse ++ t := by
            intro m hm
            have hmM := hDMsubM.mem hm
            have hnodupM1 : ((clsK (keyOf s) M ++
                M.dropWhile (fun m => decide (keyOf m = keyOf s))).map
                  (createMessageHash · sm)).Nodup := by rw [← hsplitM]; exact h1
            have hnodupM2 : ((clsK (keyOf s) M ++
                M.dropWhile (fun m => decide (keyOf m = keyOf s))).map
                  (createTimeAwareHash · sm)).Nodup := by rw [← hsplitM]; exact h2
            rw [List.map_append, List.nodup_append] at hnodupM1 hnodupM2
            constructor
            · intro hmem
              rcases List.mem_append.mp hmem with hmem | hmem
              · rw [List.mem_reverse] at hmem
                exact hnodupM1.2.2 hmem (List.mem_map_of_mem _ hm)
              · exact (h3 m hmM).1 hmem
            · intro hmem
              rcases List.mem_append.mp hmem with hmem | hmem
              · rw [List.mem_reverse] at hmem
                exact hnodupM2.2.2 hmem (List.mem_map_of_mem _ hm)
              · exact (h3 m hmM).2 hmem
          rw [ih _ _ _ _ hlenD hPD hPDM hclsD h1D h2D h3D]
          exact hsplitM.symm

/-! ### The integer form of the similarity test is the rational one -/

theorem splitWsGo_ne_nil : ∀ (b : Bool) (l acc : List Char), splitWsGo b l acc ≠ [] := by
  intro b l
  induction l generalizing b with
  | nil => intro acc; cases b <;> simp [splitWsGo]
  | cons c rest ih =>
      intro acc
      cases b <;> rw [splitWsGo] <;> split
      · exact fun h => List.cons_ne_nil _ _ h
      · exact ih false _
      · exact ih true _
      · exact ih false _

theorem jsSplitWs_ne_nil (s : String) : jsSplitWs s ≠ [] := by
  rw [jsSplitWs]
  intro h
  exact splitWsGo_ne_nil false s.data [] (List.map_eq_nil_iff.mp h)

theorem jsSetOf_ne_nil {l : List String} (h : l ≠ []) : jsSetOf l ≠ [] := by
  have step : ∀ (l' : List String) (acc : List String), acc ≠ [] →
      l'.foldl (fun acc x => if x ∈ acc then acc else acc ++ [x]) acc ≠ [] := by
    intro l'
    induction l' with
    | nil => intro acc ha; simpa using ha
    | cons x xs ih =>
        intro acc ha
        rw [List.foldl_cons]
        refine ih _ ?_
        split
        · exact ha
        · intro hc
          rw [List.append_eq_nil] at hc
          simp at hc
  cases l with
  | nil => exact absurd rfl h
  | cons x xs =>
      rw [jsSetOf, List.foldl_cons]
      refine step _ _ ?_
      simp

theorem simGtFifth_iff (m1 m2 : List String) :
    simGtFifth m1 m2 = true ↔ calculateMessageSimilarity m1 m2 > 1/5 := by
  rw [simGtFifth, calculateMessageSimilarity]
  by_cases h : m1.length = 0 ∨ m2.length = 0
  · rw [if_pos h, if_pos h]
    norm_num
  · rw [if_neg h, if_neg h]
    simp only [decide_eq_true_eq, gt_iff_lt]
    have hne : jsSetOf (jsSetOf (jsSplitWs (jsToLower (joinSpace m1))) ++
        jsSetOf (jsSplitWs (jsToLower (joinSpace m2)))) ≠ [] := by
      apply jsSetOf_ne_nil
      intro hc
      rw [List.append_eq_nil] at hc
      exact jsSetOf_ne_nil (jsSplitWs_ne_nil _) hc.1
    have hu : 0 < (jsSetOf (jsSetOf (jsSplitWs (jsToLower (joinSpace m1))) ++
        jsSetOf (jsSplitWs (jsToLower (joinSpace m2))))).length := List.length_pos.mpr hne
    rw [div_lt_div_iff₀ (by norm_num) (by exact_mod_cast hu), one_mul]
    norm_cast
    omega

/-! ### Identity-normalizer helper lemmas -/

theorem normalizeSenderName_congr {m1 m2 : Message}
    (hf : m1.formattedName = m2.formattedName) (hd : m1.displayName = m2.displayName)
    (sm : Option (List (String × String))) :
    normalizeSenderName m1 sm = normalizeSenderName m2 sm := by
  simp only [normalizeSenderName, normalizeSenderNameNoMap, hf, hd]

theorem string_eq_empty_iff (s : String) : s = "" ↔ s.data = [] := by
  constructor
  · rintro rfl; rfl
  · intro h
    cases s with
    | mk d =>
        have hd : d = [] := h
        subst hd
        rfl

theorem digitChar_not_stripped {c : Char} (h : digitChar c = true) :
    ¬ (jsWhitespaceChar c ∨ c = '-' ∨ c = '(' ∨ c = ')') := by
  rw [digitChar] at h
  simp only [decide_eq_true_eq] at h
  intro hc
  rcases hc with hws | h1 | h1 | h1
  · rw [jsWhitespaceChar] at hws
    simp only [decide_eq_true_eq] at hws
    rcases hws with h1 | h1 | h1 | h1 | h1 | h1 | h1 | h1 | h1 | h1 | h1 | h1 | h1 | h1 | h1 <;>
      first
        | (have h2 := congrArg Char.toNat h1; simp at h2; omega)
        | omega
  all_goals (have h2 := congrArg Char.toNat h1; simp at h2; omega)

theorem phoneTest_strip_ne {s : String} (h : phoneTest s = true) : stripPhone s ≠ "" := by
  rw [phoneTest] at h
  simp only [spanDigits, Bool.and_eq_true, decide_eq_true_eq] at h
  set l := if s.data.head? = some '+' then s.data.drop 1 else s.data with hl
  obtain ⟨hrun, _⟩ := h
  have hne : l.takeWhile digitChar ≠ [] := by
    intro hc
    rw [hc] at hrun
    simp at hrun
  obtain ⟨d, hd⟩ := List.exists_mem_of_ne_nil _ hne
  have hdig : digitChar d = true := List.mem_takeWhile_imp hd
  have hdl : d ∈ l := (List.takeWhile_sublist _).mem hd
  have hds : d ∈ s.data := by
    rw [hl] at hdl
    split at hdl
    · exact (List.drop_sublist _ _).mem hdl
    · exact hdl
  rw [stripPhone, Ne, string_eq_empty_iff]
  intro hc
  have : d ∈ s.data.filter fun c => decide ¬ (jsWhitespaceChar c ∨ c = '-' ∨ c = '(' ∨ c = ')') :=
    List.mem_filter.mpr ⟨hds, by simpa using digitChar_not_stripped hdig⟩
  rw [show String.data ⟨s.data.filter fun c =>
      decide ¬ (jsWhitespaceChar c ∨ c = '-' ∨ c = '(' ∨ c = ')')⟩ =
      s.data.filter fun c => decide ¬ (jsWhitespaceChar c ∨ c = '-' ∨ c = '(' ∨ c = ')') from rfl]
      at hc
  rw [hc] at this
  simp at this

theorem extractShortName_ne {s : String} (h : s ≠ "") : extractShortName s ≠ "" := by
  rw [extractShortName]
  simp only
  cases hw : (jsSplitWs ⟨removeFillers (removeAtDotRuns s.data)⟩).filter (fun w => w.length > 2) with
  | nil =>
      show (if s.length > 20 then jsTake s 20 ++ "..." else s) ≠ ""
      split_ifs with hlen
      · rw [Ne, string_eq_empty_iff]
        intro hc
        have h3 := congrArg List.length hc
        rw [show (jsTake s 20 ++ "...").data = (jsTake s 20).data ++ "...".data from rfl] at h3
        simp at h3
      · exact h
  | cons w ws =>
      have hmem : w ∈ (jsSplitWs ⟨removeFillers (removeAtDotRuns s.data)⟩).filter
          (fun w => w.length > 2) := by rw [hw]; exact List.mem_cons_self _ _
      have := (List.mem_filter.mp hmem).2
      simp only [decide_eq_true_eq] at this
      rw [Ne, string_eq_empty_iff]
      intro hc
      rw [show w.length = w.data.length from rfl, hc] at this
      simp at this

theorem mem_mapSet {m : List (String × String)} {k' v' k v : String}
    (h : (k, v) ∈ mapSet m k' v') : (k, v) ∈ m ∨ (k = k' ∧ v = v') := by
  rw [mapSet] at h
  split at h
  · obtain ⟨p, hp, hpe⟩ := List.mem_map.mp h
    by_cases hpk : p.1 = k'
    · rw [if_pos hpk] at hpe
      right
      exact ⟨(Prod.mk.injEq _ _ _ _ ▸ hpe).1.symm ▸ rfl, ((Prod.mk.injEq _ _ _ _).mp hpe.symm).2⟩
    · rw [if_neg hpk] at hpe
      left
      exact hpe ▸ hp
  · rcases List.mem_append.mp h with h | h
    · left; exact h
    · right; simpa using h

theorem statsStep_inv {stats : List (String × SenderStats)} (msg : Message)
    (h : statsInv stats) : statsInv (statsStep stats msg) := by
  unfold statsStep
  have h1 : statsInv (if mapHas stats (jsTrim msg.formattedName) then stats
      else stats ++ [(jsTrim msg.formattedName,
        { count := 0, displayNames := [], isPhone := phoneTest (jsTrim msg.formattedName),
          isYou := jsTrim msg.formattedName = "You", sampleMessages := [] })]) := by
    split
    · exact h
    · intro r hr
      rcases List.mem_append.mp hr with hr | hr
      · exact h r hr
      · simp only [List.mem_singleton] at hr
        subst hr
        exact ⟨by intro d hd; simp at hd, rfl⟩
  intro p hp
  obtain ⟨q, hq, hqe⟩ := List.mem_map.mp hp
  have hq1 := h1 q hq
  by_cases hqk : q.1 = jsTrim msg.formattedName
  · rw [if_pos hqk] at hqe
    subst hqe
    refine ⟨?_, hq1.2⟩
    intro d hd
    simp only at hd
    split at hd
    · rename_i hcond
      rcases List.mem_append.mp hd with hd | hd
      · exact hq1.1 d hd
      · simp only [List.mem_singleton] at hd
        subst hd
        exact hcond.1
    · exact hq1.1 d hd
  · rw [if_neg hqk] at hqe
    subst hqe
    exact hq1

theorem senderStats_inv (msgs : List Message) : statsInv (msgs.foldl statsStep []) := by
  have step : ∀ (l : List Message) (acc : List (String × SenderStats)),
      statsInv acc → statsInv (l.foldl statsStep acc) := by
    intro l
    induction l with
    | nil => intro acc h; exact h
    | cons m rest ih => intro acc h; exact ih _ (statsStep_inv m h)
  exact step msgs [] (by intro p hp; simp at hp)

theorem mappingStage1_value_ne {youStats : Option (String × SenderStats)}
    {nameStats : List (String × SenderStats)} {k v : String}
    (h : (k, v) ∈ mappingStage1 youStats nameStats) : v ≠ "" := by
  unfold mappingStage1 at h
  rcases youStats with _ | you
  · simp at h
  · simp only at h
    rcases hfind : nameStats.find? (fun p => p.2.count > 3 ∧
        simGtFifth you.2.sampleMessages p.2.sampleMessages = true) with _ | hit
    · rw [hfind] at h
      rcases mem_mapSet h with h | h
      · simp at h
      · rw [h.2]; intro hc; simp at hc
    · rw [hfind] at h
      rcases mem_mapSet h with h | h
      · rcases mem_mapSet h with h | h
        · simp at h
        · rw [h.2]; intro hc; simp at hc
      · rw [h.2]; intro hc; simp at hc

theorem mappingStage2_value_ne {phoneStats : List (String × SenderStats)}
    {m : List (String × String)} {k v : String}
    (hphone : ∀ p ∈ phoneStats, phoneTest p.1 = true)
    (hm : ∀ k' v', (k', v') ∈ m → v' ≠ "")
    (h : (k, v) ∈ mappingStage2 phoneStats m) : v ≠ "" := by
  induction phoneStats generalizing m with
  | nil => exact hm k v h
  | cons p rest ih =>
      rw [mappingStage2, List.foldl_cons] at h
      refine ih (fun q hq => hphone q (List.mem_cons_of_mem _ hq)) ?_ h
      intro k' v' h'
      rcases mem_mapSet h' with h' | h'
      · exact hm _ _ h'
      · rw [h'.2]
        exact phoneTest_strip_ne (hphone p (List.mem_cons_self _ _))

theorem mappingStage3_value_ne {nameStats : List (String × SenderStats)}
    {m : List (String × String)} {k v : String}
    (hdn : ∀ p ∈ nameStats, ∀ d ∈ p.2.displayNames, d ≠ "")
    (hm : ∀ k' v', (k', v') ∈ m → k' ≠ "" → v' ≠ "")
    (h : (k, v) ∈ mappingStage3 nameStats m) (hk : k ≠ "") : v ≠ "" := by
  induction nameStats generalizing m with
  | nil => exact hm k v h hk
  | cons p rest ih =>
      rw [mappingStage3, List.foldl_cons] at h
      refine ih (fun q hq => hdn q (List.mem_cons_of_mem _ hq)) ?_ h
      intro k' v' h' hk'
      split at h'
      · exact hm _ _ h' hk'
      · rcases hdns : p.2.displayNames with _ | ⟨d, ds⟩
        · rw [hdns] at h'
          rcases mem_mapSet h' with h' | h'
          · exact hm _ _ h' hk'
          · rw [h'.2]
            exact extractShortName_ne (h'.1 ▸ hk')
        · rw [hdns] at h'
          rcases mem_mapSet h' with h' | h'
          · exact hm _ _ h' hk'
          · rw [h'.2]
            exact hdn p (List.mem_cons_self _ _) d (by rw [hdns]; exact List.mem_cons_self _ _)

/-- Every binding of a non-empty key in the sender mapping has a non-empty
canonical token. -/
theorem buildSenderMapping_value_ne {js ns : List Message} {k v : String}
    (hmem : (k, v) ∈ buildSenderMapping js ns) (hk : k ≠ "") : v ≠ "" := by
  have hinv := senderStats_inv (js ++ ns)
  rw [buildSenderMapping] at hmem
  refine mappingStage3_value_ne ?_ ?_ hmem hk
  · intro p hp d hd
    exact (hinv p ((List.filter_sublist _).mem hp)).1 d hd
  · intro k' v' h' _
    refine mappingStage2_value_ne ?_ (fun a b hab => mappingStage1_value_ne hab) h'
    intro p hp
    have hmemp := List.mem_filter.mp hp
    have h2 := (hinv p hmemp.1).2
    rw [← h2]
    simpa using hmemp.2

theorem mapGet_mem {m : List (String × String)} {k v : String}
    (h : mapGet m k = some v) : (k, v) ∈ m := by
  rw [mapGet] at h
  obtain ⟨p, hp, hv⟩ := Option.map_eq_some'.mp h
  have hmem := List.mem_of_find?_eq_some hp
  have hpred := List.find?_some hp
  simp only [decide_eq_true_eq] at hpred
  cases p with
  | mk a b =>
      simp only at hpred hv
      subst hpred
      subst hv
      exact hmem

theorem normalizeSenderNameNoMap_ne {m : Message} (h : jsTrim m.formattedName ≠ "") :
    normalizeSenderNameNoMap m ≠ "" := by
  rw [normalizeSenderNameNoMap]
  split_ifs with h1 h2 h3
  · intro hc; simp at hc
  · exact phoneTest_strip_ne h2
  · exact h3
  · exact extractShortName_ne h

/-! ### Merge-output structure -/

theorem mergeMessagesWith_pairwise {sm : Option (List (String × String))}
    {js ns : List Message} (h : ∀ m ∈ js ++ ns, m.timestamp.isSome) :
    (mergeMessagesWith sm js ns).Pairwise keyLe := by
  unfold mergeMessagesWith
  refine List.Pairwise.sublist (dedupRun_sublist sm _ [] []) ?_
  rw [sort_jsLe_eq_keyLe h]
  exact List.sorted_insertionSort keyLe (js ++ ns)

theorem mergeMessagesWith_isSome {sm : Option (List (String × String))}
    {js ns : List Message} (h : ∀ m ∈ js ++ ns, m.timestamp.isSome) :
    ∀ m ∈ mergeMessagesWith sm js ns, m.timestamp.isSome :=
  fun m hm => h m (mem_of_mem_mergeMessagesWith hm)

/-! ### String-concatenation helpers for the fingerprint arguments -/

theorem str_data_append (a b : String) : (a ++ b).data = a.data ++ b.data := rfl

theorem str_append_empty (s : String) : s ++ "" = s := by
  cases s with
  | mk d =>
      show String.mk (d ++ []) = String.mk d
      rw [List.append_nil]

theorem append4_cancel {A x C R y : String} (h : A ++ x ++ C ++ R = A ++ y ++ C ++ R) :
    x = y := by
  have hd := congrArg String.data h
  simp only [str_data_append, List.append_assoc] at hd
  have h1 := List.append_cancel_left hd
  have h2 := List.append_cancel_right h1
  cases x with
  | mk dx =>
      cases y with
      | mk dy =>
          simp only at h2
          rw [h2]

theorem createMessageHash_eq (m : Message) (sm : Option (List (String × String))) :
    createMessageHash m sm = jsStringHash (normalizeSenderName m sm ++ ":" ++
      (if m.messageType = "" then "chat" else m.messageType) ++ ":" ++ jsTrim m.messageBody) :=
  rfl

theorem createTimeAwareHash_eq (m : Message) (sm : Option (List (String × String))) :
    createTimeAwareHash m sm = normalizeSenderName m sm ++ ":" ++
      (if m.messageType = "" then "chat" else m.messageType) ++ ":" ++ jsTrim m.messageBody ++
      ":" ++ roundedTimestampStr m.timestamp :=
  rfl

/-! ## The claims -/

set_option maxRecDepth 4000000

/-- C2 (counterexample): the canonical sender token is NOT a pure per-message
function.  The message `c2m` (sender `"Mike"`) has identical sender fields in
the two runs `c2run1` and `c2run2`, which differ only in other messages, yet
its token is `"Mike"` in one run and `"SELF"` in the other: the sender mapping
is inferred statistically from all messages (`buildSenderMapping`'s
similarity-to-`"You"` rule fires once `"Mike"` has more than 3 messages). -/
theorem c2_counterexample :
    c2m ∈ c2run1 ∧ c2m ∈ c2run2 ∧
    normalizeSenderName c2m (some (buildSenderMapping c2run1 [])) ≠
      normalizeSenderName c2m (some (buildSenderMapping c2run2 [])) := by
  refine ⟨by decide, by decide, by decide⟩

/-- C2 (amended): identity normalization is pure and per-message only on the
fallback path, when no statistically-built sender mapping is supplied: the
token then depends only on the message's raw sender label and display name. -/
theorem c2_amended_pure_fallback (m1 m2 : Message)
    (hf : m1.formattedName = m2.formattedName) (hd : m1.displayName = m2.displayName) :
    normalizeSenderName m1 none = normalizeSenderName m2 none :=
  normalizeSenderName_congr hf hd none

/-- Witness for `c2_amended_pure_fallback` at two concrete messages that agree
on sender fields and differ in body. -/
theorem c2_amended_witness :
    normalizeSenderName { formattedName := "Mike", messageBody := "a" } none =
      normalizeSenderName { formattedName := "Mike", messageBody := "b" } none :=
  c2_amended_pure_fallback
    { formattedName := "Mike", messageBody := "a" }
    { formattedName := "Mike", messageBody := "b" } rfl rfl

/-- C3: cross-format deduplication.  A structured-record message and a
transcript message with equal canonical sender token, equal type, equal trimmed
body, and timestamps in the same 5-minute window (floor division of the
millisecond timestamp by 300000) are merged into exactly one message. -/
theorem c3_cross_format_dedup (jm nm : Message) (tj tn : Int)
    (htj : jm.timestamp = some tj) (htn : nm.timestamp = some tn)
    (hsender : normalizeSenderName jm (some (buildSenderMapping [jm] [nm])) =
               normalizeSenderName nm (some (buildSenderMapping [jm] [nm])))
    (hty : jm.messageType = nm.messageType)
    (hbody : jsTrim jm.messageBody = jsTrim nm.messageBody)
    (hwin : Int.fdiv tj 300000 = Int.fdiv tn 300000) :
    (mergeMessages [jm] [nm]).length = 1 := by
  have htype : (if jm.messageType = "" then "chat" else jm.messageType) =
      (if nm.messageType = "" then "chat" else nm.messageType) := by rw [hty]
  have hch : createMessageHash jm (some (buildSenderMapping [jm] [nm])) =
      createMessageHash nm (some (buildSenderMapping [jm] [nm])) := by
    rw [createMessageHash_eq, createMessageHash_eq, hsender, htype, hbody]
  have hround : roundedTimestampStr jm.timestamp = roundedTimestampStr nm.timestamp := by
    rw [htj, htn, roundedTimestampStr, roundedTimestampStr, hwin]
  have hth : createTimeAwareHash jm (some (buildSenderMapping [jm] [nm])) =
      createTimeAwareHash nm (some (buildSenderMapping [jm] [nm])) := by
    rw [createTimeAwareHash_eq, createTimeAwareHash_eq, hsender, htype, hbody, hround]
  have hexp : mergeMessages [jm] [nm] =
      (dedupRun (some (buildSenderMapping [jm] [nm]))
        (List.insertionSort jsLe [jm, nm]) [] []).1 := rfl
  rw [hexp]
  by_cases hle : jsLe jm nm
  · have hsort : List.insertionSort jsLe [jm, nm] = [jm, nm] := by
      show List.orderedInsert jsLe jm (List.insertionSort jsLe [nm]) = _
      rw [show List.insertionSort jsLe [nm] = [nm] from rfl]
      exact List.orderedInsert_of_le jsLe [] hle
    rw [hsort, dedupRun, if_neg (List.not_mem_nil _), if_neg (List.not_mem_nil _)]
    simp only
    rw [dedupRun, if_pos (by rw [← hch]; exact List.mem_singleton_self _)]
    rfl
  · have hsort : List.insertionSort jsLe [jm, nm] = [nm, jm] := by
      show List.orderedInsert jsLe jm (List.insertionSort jsLe [nm]) = _
      rw [show List.insertionSort jsLe [nm] = [nm] from rfl]
      rw [List.orderedInsert, if_neg hle]
      rfl
    rw [hsort, dedupRun, if_neg (List.not_mem_nil _), if_neg (List.not_mem_nil _)]
    simp only
    rw [dedupRun, if_pos (by rw [hch]; exact List.mem_singleton_self _)]
    rfl

/-- Witness for `c3_cross_format_dedup`: a JSON and a native message with the
same sender/type/body and timestamps 0 and 200000 milliseconds (same 5-minute
window) merge to a single message. -/
theorem c3_witness : (mergeMessages [c3jm] [c3nm]).length = 1 :=
  c3_cross_format_dedup c3jm c3nm 0 200000 rfl rfl (by decide) rfl rfl (by decide)

/-- C5 (counterexample): two input messages that differ only in body text are
NOT always both kept.  The bodies `"Aa"` and `"BB"` collide in the 31-based
32-bit rolling hash (the content fingerprint), so the second message is
dropped as a duplicate. -/
theorem c5_counterexample :
    c5m1.formattedName = c5m2.formattedName ∧ c5m1.displayName = c5m2.displayName ∧
    c5m1.messageType = c5m2.messageType ∧ c5m1.timestamp = c5m2.timestamp ∧
    c5m1.messageBody ≠ c5m2.messageBody ∧
    mergeMessages [c5m1, c5m2] [] = [c5m1] := by
  refine ⟨rfl, rfl, rfl, rfl, by decide, by decide⟩

/-- C5 (amended): two input messages that differ only in their body text both
survive the merge provided their 32-bit content fingerprints differ (the
time-windowed fingerprints then differ automatically); the JS rolling hash can
collide on distinct short bodies such as `"Aa"`/`"BB"`, in which case one
message is falsely dropped. -/
theorem c5_amended (m1 m2 : Message)
    (hf : m1.formattedName = m2.formattedName) (hd : m1.displayName = m2.displayName)
    (hty : m1.messageType = m2.messageType) (hts : m1.timestamp = m2.timestamp)
    (hhash : createMessageHash m1 (some (buildSenderMapping [m1, m2] [])) ≠
             createMessageHash m2 (some (buildSenderMapping [m1, m2] []))) :
    mergeMessages [m1, m2] [] = [m1, m2] := by
  have hsender := normalizeSenderName_congr hf hd (some (buildSenderMapping [m1, m2] []))
  have htype : (if m1.messageType = "" then "chat" else m1.messageType) =
      (if m2.messageType = "" then "chat" else m2.messageType) := by rw [hty]
  have hround : roundedTimestampStr m1.timestamp = roundedTimestampStr m2.timestamp := by
    rw [hts]
  have hth : createTimeAwareHash m1 (some (buildSenderMapping [m1, m2] [])) ≠
      createTimeAwareHash m2 (some (buildSenderMapping [m1, m2] [])) := by
    intro heq
    apply hhash
    rw [createTimeAwareHash_eq, createTimeAwareHash_eq, hsender, htype, hround] at heq
    have hbody := append4_cancel heq
    rw [createMessageHash_eq, createMessageHash_eq, hsender, htype, hbody]
  have hle : jsLe m1 m2 := by
    rw [jsLe, jsLeB, hts]
    cases m2.timestamp with
    | none => rfl
    | some y => simp
  have hexp : mergeMessages [m1, m2] [] =
      (dedupRun (some (buildSenderMapping [m1, m2] []))
        (List.insertionSort jsLe ([m1, m2] ++ [])) [] []).1 := rfl
  rw [hexp, List.append_nil]
  have hsort : List.insertionSort jsLe [m1, m2] = [m1, m2] := by
    show List.orderedInsert jsLe m1 (List.insertionSort jsLe [m2]) = _
    rw [show List.insertionSort jsLe [m2] = [m2] from rfl]
    exact List.orderedInsert_of_le jsLe [] hle
  rw [hsort, dedupRun, if_neg (List.not_mem_nil _), if_neg (List.not_mem_nil _)]
  simp only
  rw [dedupRun,
    if_neg (by rw [List.mem_singleton]; exact fun heq => hhash heq.symm),
    if_neg (by rw [List.mem_singleton]; exact fun heq => hth heq.symm),
    dedupRun]

/-- Witness for `c5_amended`: bodies `"Aa"` and `"BC"` hash differently, so
both messages survive. -/
theorem c5_amended_witness : mergeMessages [c5m1, c5m2'] [] = [c5m1, c5m2'] :=
  c5_amended c5m1 c5m2' rfl rfl rfl rfl (by decide)

/-- C7: date normalization never fails.  For every input string on which none
of the four recognized formats succeeds (prefix-matching US, bracketed EU,
unbracketed EU, or the full ISO shape with a valid instant), `normalizeDate`
returns the current time as the normalized value together with the
`Could not parse date` warning, instead of raising. -/
theorem c7_normalizeDate_fallback (now : Int) (s : String)
    (h1 : matchUSDate s.data = none) (h2 : matchEUDate s.data = none)
    (h3 : matchEUNBDate s.data = none)
    (h4 : ∀ y mo d h mi sec, readDateTimeShape ' ' s.data = some (y, mo, d, h, mi, sec) →
      isoFieldsToMillis y mo d h mi sec = none) :
    normalizeDate now s = (isoOfMillis now, ["Could not parse date: " ++ s]) := by
  have haux : normalizeDateAux s = none := by
    rw [normalizeDateAux]
    simp only [h1, h2, h3, Option.map_none']
    rcases hr : readDateTimeShape ' ' s.data with _ | f
    · rfl
    · obtain ⟨y, mo, d, h, mi, sec⟩ := f
      exact h4 y mo d h mi sec hr
  rw [normalizeDate, haux]

/-- Witness for `c7_normalizeDate_fallback` at the unparseable string
`"garbage"`. -/
theorem c7_witness :
    normalizeDate 0 "garbage" = (isoOfMillis 0, ["Could not parse date: " ++ "garbage"]) :=
  c7_normalizeDate_fallback 0 "garbage" (by decide) (by decide) (by decide)
    (by
      intro y mo d h mi sec hr
      rw [show readDateTimeShape ' ' ("garbage" : String).data = none from by decide] at hr
      exact absurd hr (by simp))

/-- C8 (counterexample): the media reconciler does NOT search the raw
transcript-backup directory.  With `photo.jpg` present only under
`chat/native_backups/`, `syncMediaFiles` copies nothing and reports the file
as missing (the claim says the copy in `native_backups/` would be found and
copied into `chat/image/`). -/
theorem c8_counterexample :
    "chat/native_backups/photo.jpg" ∈ c8fs.files ∧
    syncMediaFiles "chat" [c8msg] c8fs =
      ({ files := ["chat/native_backups/photo.jpg"],
         dirs := ["chat/image", "chat/document", "chat/video", "chat/audio"] },
       ["Media file not found: photo.jpg"]) := by
  refine ⟨by decide, by decide⟩

/-- C8 (amended): for an attachment message, the reconciler searches only the
four media-type directories: when the file is in none of them (nor already at
its canonical path) it emits a warning naming the file and changes no files,
and the run continues; when the file is present in some media-type directory,
the first match is copied to the canonical path and no warning is emitted. -/
theorem c8_amended (chatDir : String) (msg : Message) (fs : FileSys)
    (h1 : msg.isAttachment = true) (h2 : msg.messageBody ≠ "") :
    ((pathJoin (pathJoin chatDir (getDirectoryForMessageType msg.messageType)) msg.messageBody ∉
        fs.files ∧
      ∀ t ∈ mediaTypes, pathJoin (pathJoin chatDir t) msg.messageBody ∉ fs.files) →
      (syncMediaFiles chatDir [msg] fs).2 = ["Media file not found: " ++ msg.messageBody] ∧
      (syncMediaFiles chatDir [msg] fs).1.files = fs.files) ∧
    ((∃ t ∈ mediaTypes, pathJoin (pathJoin chatDir t) msg.messageBody ∈ fs.files) →
      (syncMediaFiles chatDir [msg] fs).2 = [] ∧
      pathJoin (pathJoin chatDir (getDirectoryForMessageType msg.messageType)) msg.messageBody ∈
        (syncMediaFiles chatDir [msg] fs).1.files) := by
  have hdirs : ∀ (l : List String) (f : FileSys),
      (l.foldl (fun f t =>
        let d := pathJoin chatDir t
        if d ∈ f.dirs then f else { f with dirs := f.dirs ++ [d] }) f).files = f.files := by
    intro l
    induction l with
    | nil => intro f; rfl
    | cons t rest ih =>
        intro f
        rw [List.foldl_cons]
        rw [ih]
        dsimp only
        split <;> rfl
  have hfilter : [msg].filter (fun m => m.isAttachment ∧ m.messageBody ≠ "") = [msg] := by
    rw [List.filter_cons]
    rw [if_pos (by simp [h1, h2])]
    rfl
  rw [syncMediaFiles]
  simp only [hfilter, List.foldl_cons, List.foldl_nil]
  constructor
  · rintro ⟨habs, hall⟩
    rw [if_neg (by rw [hdirs]; exact habs)]
    rw [show mediaTypes.find?
        (fun t => pathJoin (pathJoin chatDir t) msg.messageBody ∈
          (mediaTypes.foldl (fun f t =>
            let d := pathJoin chatDir t
            if d ∈ f.dirs then f else { f with dirs := f.dirs ++ [d] }) fs).files) = none from by
      rw [List.find?_eq_none]
      intro t ht
      rw [hdirs]
      simpa using hall t ht]
    exact ⟨rfl, hdirs _ _⟩
  · rintro ⟨t, ht, hmem⟩
    by_cases hsrc : pathJoin (pathJoin chatDir (getDirectoryForMessageType msg.messageType))
        msg.messageBody ∈ fs.files
    · rw [if_pos (by rw [hdirs]; exact hsrc)]
      exact ⟨rfl, by rw [hdirs]; exact hsrc⟩
    · rw [if_neg (by rw [hdirs]; exact hsrc)]
      rcases hfind : mediaTypes.find?
          (fun u => pathJoin (pathJoin chatDir u) msg.messageBody ∈
            (mediaTypes.foldl (fun f u =>
              let d := pathJoin chatDir u
              if d ∈ f.dirs then f else { f with dirs := f.dirs ++ [d] }) fs).files) with _ | u
      · exfalso
        rw [List.find?_eq_none] at hfind
        exact hfind t ht (by rw [hdirs]; simpa using hmem)
      · rw [hfind]
        refine ⟨rfl, ?_⟩
        simp only
        exact List.mem_append.mpr (Or.inr (List.mem_singleton_self _))

/-- Witness for `c8_amended` at a concrete attachment message and file
system. -/
theorem c8_amended_witness :
    (("chat/image/photo.jpg" ∉ c8fs.files ∧
      ∀ t ∈ mediaTypes, pathJoin (pathJoin "chat" t) "photo.jpg" ∉ c8fs.files) →
      (syncMediaFiles "chat" [c8msg] c8fs).2 = ["Media file not found: " ++ "photo.jpg"] ∧
      (syncMediaFiles "chat" [c8msg] c8fs).1.files = c8fs.files) ∧
    ((∃ t ∈ mediaTypes, pathJoin (pathJoin "chat" t) "photo.jpg" ∈ c8fs.files) →
      (syncMediaFiles "chat" [c8msg] c8fs).2 = [] ∧
      "chat/image/photo.jpg" ∈ (syncMediaFiles "chat" [c8msg] c8fs).1.files) :=
  c8_amended "chat" c8msg c8fs rfl (by decide)

/-- C9 (counterexample): the canonical sender CAN be empty.  A message whose
raw sender label is empty gets the empty token, both in the mapping-free
fallback and with a mapping built by `buildSenderMapping`. -/
theorem c9_counterexample :
    normalizeSenderName c9m none = "" ∧
    normalizeSenderName c9m (some (buildSenderMapping [c9m] [])) = "" := by
  refine ⟨by decide, by decide⟩

/-- C9 (amended): the canonical sender token is non-empty provided the trimmed
raw sender label is non-empty, both under any mapping built by
`buildSenderMapping` and on the mapping-free fallback path; an unresolvable
sender falls back to a shortened form of the raw label (first word longer than
two characters, or the label truncated to 20 characters plus an ellipsis), not
necessarily the raw label verbatim. -/
theorem c9_amended (js ns : List Message) (m : Message)
    (h : jsTrim m.formattedName ≠ "") :
    normalizeSenderName m (some (buildSenderMapping js ns)) ≠ "" ∧
    normalizeSenderName m none ≠ "" := by
  constructor
  · rw [normalizeSenderName]
    rcases hget : mapGet (buildSenderMapping js ns) (jsTrim m.formattedName) with _ | v
    · simp only [hget]
      exact normalizeSenderNameNoMap_ne h
    · simp only [hget]
      exact buildSenderMapping_value_ne (mapGet_mem hget) h
  · exact normalizeSenderNameNoMap_ne h

/-- Witness for `c9_amended` at the sender label `"Mike"`. -/
theorem c9_amended_witness :
    normalizeSenderName { formattedName := "Mike" } (some (buildSenderMapping [] [])) ≠ "" ∧
    normalizeSenderName { formattedName := "Mike" } none ≠ "" :=
  c9_amended [] [] { formattedName := "Mike" } (by decide)

/-- C1 (counterexample): merge is NOT idempotent.  For `c1A` (a `"You"` sender
plus two `"Mike"` messages), feeding the merged output back in as both inputs
changes the result: doubling the input pushes `"Mike"`'s message count above
the statistical threshold, `buildSenderMapping` now maps `"Mike"` to `"SELF"`,
and `"Mike"`'s `"hello"` collides with `"You"`'s `"hello"` and is dropped. -/
theorem c1_counterexample :
    mergeMessages (mergeMessages c1A []) (mergeMessages c1A []) ≠ mergeMessages c1A [] := by
  decide

/-- C1 (amended): merge is idempotent once the sender mapping (and hence the
fingerprints) is held fixed: re-running the sort-and-dedup pass of
`mergeMessages` with the originally computed mapping on its own output — as
one input with an empty second input, or as both inputs — returns the output
unchanged, for inputs whose timestamps all parsed.  Idempotence fails only
because `mergeMessages` recomputes the statistical sender mapping on re-runs. -/
theorem c1_amended (A B : List Message) (h : ∀ m ∈ A ++ B, m.timestamp.isSome) :
    mergeMessagesWith (some (buildSenderMapping A B)) (mergeMessages A B) [] =
      mergeMessages A B ∧
    mergeMessagesWith (some (buildSenderMapping A B)) (mergeMessages A B) (mergeMessages A B) =
      mergeMessages A B := by
  have hSome : ∀ m ∈ mergeMessages A B, m.timestamp.isSome := mergeMessagesWith_isSome h
  have hPair : (mergeMessages A B).Pairwise keyLe := mergeMessagesWith_pairwise h
  have hprops := dedupRun_kept_props (some (buildSenderMapping A B))
    ((A ++ B).insertionSort jsLe) [] []
  have hKeq : (dedupRun (some (buildSenderMapping A B)) ((A ++ B).insertionSort jsLe) [] []).1 =
      mergeMessages A B := rfl
  rw [hKeq] at hprops
  obtain ⟨hnodC, hnodT, _⟩ := hprops
  constructor
  · have hunf : mergeMessagesWith (some (buildSenderMapping A B)) (mergeMessages A B) [] =
        (dedupRun (some (buildSenderMapping A B))
          ((mergeMessages A B ++ []).insertionSort jsLe) [] []).1 := rfl
    rw [hunf, List.append_nil, sort_jsLe_eq_keyLe hSome, List.Sorted.insertionSort_eq hPair,
      dedupRun_all_fresh (some (buildSenderMapping A B)) hnodC hnodT
        (fun m _ => ⟨List.not_mem_nil _, List.not_mem_nil _⟩)]
  · have hunf : mergeMessagesWith (some (buildSenderMapping A B)) (mergeMessages A B)
        (mergeMessages A B) =
        (dedupRun (some (buildSenderMapping A B))
          ((mergeMessages A B ++ mergeMessages A B).insertionSort jsLe) [] []).1 := rfl
    rw [hunf]
    have hSome2 : ∀ m ∈ mergeMessages A B ++ mergeMessages A B, m.timestamp.isSome := by
      intro m hm
      rcases List.mem_append.mp hm with hm | hm <;> exact hSome m hm
    rw [sort_jsLe_eq_keyLe hSome2]
    refine dedup_doubled (some (buildSenderMapping A B))
      ((mergeMessages A B ++ mergeMessages A B).insertionSort keyLe).length _ _ [] [] le_rfl
      (List.sorted_insertionSort keyLe _) hPair ?_ hnodC hnodT
      (fun m _ => ⟨List.not_mem_nil _, List.not_mem_nil _⟩)
    intro k
    rw [clsK_insertionSort, clsK, List.filter_append]
    rfl

/-- Witness for `c1_amended` at the concrete input `c1A`. -/
theorem c1_amended_witness :
    mergeMessagesWith (some (buildSenderMapping c1A [])) (mergeMessages c1A []) [] =
      mergeMessages c1A [] ∧
    mergeMessagesWith (some (buildSenderMapping c1A [])) (mergeMessages c1A [])
        (mergeMessages c1A []) =
      mergeMessages c1A [] :=
  c1_amended c1A [] (by decide)

/-- C4: chronological order.  For inputs whose timestamps all parsed (no `NaN`
timestamp), every adjacent pair of the merged output is non-decreasing by
timestamp. -/
theorem c4_chronological_order (js ns : List Message)
    (h : ∀ m ∈ js ++ ns, m.timestamp.isSome) :
    List.Chain' (fun a b => a.timestamp.getD 0 ≤ b.timestamp.getD 0) (mergeMessages js ns) :=
  List.Pairwise.chain' (mergeMessagesWith_pairwise h)

/-- Witness for `c4_chronological_order` at a concrete out-of-order input. -/
theorem c4_witness :
    List.Chain' (fun a b => a.timestamp.getD 0 ≤ b.timestamp.getD 0)
      (mergeMessages c4js []) :=
  c4_chronological_order c4js [] (by decide)

/-- C6 (counterexample): a non-empty line matching neither a message-start
pattern nor the system pattern is NOT always treated as a continuation: the
parser also requires the line not to contain `" - "`.  The transcript below has
an attachment message followed by the line `"hello - world"`, which the claim
says starts a new chat message (2 messages total); the parser drops it and
yields 1 message. -/
theorem c6_counterexample :
    (jsTrim "hello - world" = "hello - world" ∧ ("hello - world" : String) ≠ "" ∧
      matchMessageUS ("hello - world" : String).data = none ∧
      matchMessageEU ("hello - world" : String).data = none ∧
      matchMessageEUNB ("hello - world" : String).data = none ∧
      matchSystem ("hello - world" : String).data = none) ∧
    (parseNativeFile 0 rndO c6input).length = 1 := by
  refine ⟨⟨by decide, by decide, by decide, by decide, by decide, by decide⟩, by decide⟩

/-- C6 (amended): the transcript continuation rule, with the source's extra
guard: a non-empty trimmed line that matches neither message-start pattern nor
the system pattern, arrives while a message is in progress, and does not
contain `" - "`, is appended (with a newline) to the current chat message's
body; if the current message is an attachment (type not `"chat"`), the line
instead starts a new chat-type message carrying the same timestamp and sender
fields.  (Lines containing `" - "`, or arriving with no message in progress,
are discarded.) -/
theorem c6_continuation (now : Int) (rnd : Nat → String) (st : NativeParseState)
    (cm : Message) (line : String)
    (hcur : st.current = some cm)
    (htr : jsTrim line = line) (hne : line ≠ "")
    (h1 : matchMessageUS line.data = none) (h2 : matchMessageEU line.data = none)
    (h3 : matchMessageEUNB line.data = none) (h4 : matchSystem line.data = none)
    (hdash : jsIncludes line " - " = false) :
    (cm.messageType = "chat" →
      parseNativeStep now rnd st line =
        { st with current := some { cm with messageBody := cm.messageBody ++ "\n" ++ line } }) ∧
    (cm.messageType ≠ "chat" →
      parseNativeStep now rnd st line =
        { messages := st.messages ++ [cm]
          current := some
            { country := cm.country
              phoneNum := cm.phoneNum
              formattedName := cm.formattedName
              displayName := ""
              messageTime := cm.messageTime
              messageType := "chat"
              messageBody := line
              messageId := generateMessageId cm.formattedName cm.messageTime true (rnd st.rndIdx)
              timestamp := cm.timestamp
              source := "native"
              isAttachment := false
              originalDateFormat := cm.originalDateFormat }
          rndIdx := st.rndIdx + 1 }) := by
  have hstep : parseNativeStep now rnd st line =
      (if cm.messageType ≠ "chat" then
        { messages := st.messages ++ [cm]
          current := some
            { country := cm.country
              phoneNum := cm.phoneNum
              formattedName := cm.formattedName
              displayName := ""
              messageTime := cm.messageTime
              messageType := "chat"
              messageBody := line
              messageId := generateMessageId cm.formattedName cm.messageTime true (rnd st.rndIdx)
              timestamp := cm.timestamp
              source := "native"
              isAttachment := false
              originalDateFormat := cm.originalDateFormat }
          rndIdx := st.rndIdx + 1 }
      else { st with current := some { cm with messageBody := cm.messageBody ++ "\n" ++ line } }) := by
    rw [parseNativeStep, htr, if_neg hne]
    rw [h1, h2, h3]
    simp only [h4, Option.isSome_none, Bool.false_eq_true, if_false, hcur, hdash]
  constructor
  · intro hc
    rw [hstep, if_neg (by simpa using hc)]
  · intro hc
    rw [hstep, if_pos hc]

/-- Witness for `c6_continuation`: a caption line after an attachment message
starts a new chat message with the attachment's timestamp and sender. -/
theorem c6_amended_witness :
    (c6att.messageType = "chat" →
      parseNativeStep 0 rndO c6st "caption" =
        { c6st with current := some { c6att with
            messageBody := c6att.messageBody ++ "\n" ++ "caption" } }) ∧
    (c6att.messageType ≠ "chat" →
      parseNativeStep 0 rndO c6st "caption" =
        { messages := c6st.messages ++ [c6att]
          current := some
            { country := c6att.country
              phoneNum := c6att.phoneNum
              formattedName := c6att.formattedName
              displayName := ""
              messageTime := c6att.messageTime
              messageType := "chat"
              messageBody := "caption"
              messageId := generateMessageId c6att.formattedName c6att.messageTime true
                (rndO c6st.rndIdx)
              timestamp := c6att.timestamp
              source := "native"
              isAttachment := false
              originalDateFormat := c6att.originalDateFormat }
          rndIdx := c6st.rndIdx + 1 }) :=
  c6_continuation 0 rndO c6st c6att "caption" rfl (by decide) (by decide)
    (by decide) (by decide) (by decide) (by decide) (by decide)

/-- Serialization shape of a message tagged `"US"`: the default branch of
`convertToNativeDate` and the `" - "` line layout. -/
theorem nativeLine_us (m : Message) (hodf : m.originalDateFormat = "US") :
    nativeLine m = convertToNativeDate m.messageTime "US" ++ " - " ++ senderNameFor m ++
      ": " ++ m.messageBody ++ (if m.messageType = "chat" then "" else " (file attached)") := by
  rw [nativeLine]
  simp only [hodf]
  by_cases hc : m.messageType = "chat"
  · rw [if_pos hc,
      if_neg (by decide : ¬ (("US" : String) = "EU" ∨ ("US" : String) = "EU_NO_BRACKETS")),
      if_pos hc, str_append_empty]
  · rw [if_neg hc,
      if_neg (by decide : ¬ (("US" : String) = "EU" ∨ ("US" : String) = "EU_NO_BRACKETS")),
      if_neg hc]

/-- C10: every message produced by the structured-record (JSON) parser is
tagged `originalDateFormat = "US"`, and consequently every message of the
merged sequence that came from the JSON input (rather than the native input)
is serialized by `messagesToNative` in the US date style
(`M/D/YY, H:MM - sender: body`), regardless of any EU styling it may have had
in an earlier run. -/
theorem c10_json_us_roundtrip (records : List JsonRecord) (ns : List Message) (m : Message)
    (hm : m ∈ mergeMessages (parseJsonFile records) ns) :
    m ∈ ns ∨ (m.originalDateFormat = "US" ∧
      nativeLine m = convertToNativeDate m.messageTime "US" ++ " - " ++ senderNameFor m ++
        ": " ++ m.messageBody ++ (if m.messageType = "chat" then "" else " (file attached)")) := by
  rcases List.mem_append.mp (mem_of_mem_mergeMessagesWith hm) with hj | hn
  · right
    rw [parseJsonFile] at hj
    obtain ⟨rec, _, heq⟩ := List.mem_map.mp hj
    have hodf : m.originalDateFormat = "US" := by rw [← heq]
    exact ⟨hodf, nativeLine_us m hodf⟩
  · left
    exact hn

/-- Witness for `c10_json_us_roundtrip` at a concrete one-record JSON input. -/
theorem c10_witness :
    c10m ∈ ([] : List Message) ∨ (c10m.originalDateFormat = "US" ∧
      nativeLine c10m = convertToNativeDate c10m.messageTime "US" ++ " - " ++
        senderNameFor c10m ++ ": " ++ c10m.messageBody ++
        (if c10m.messageType = "chat" then "" else " (file attached)")) :=
  c10_json_us_roundtrip [c10rec] [] c10m (by decide)


end WhatsappSync
